import Mathlib

/-!
# Verification of the sdlc_agent orchestration core

A shallow embedding, in Lean 4, of the pure computational core of the
`sdlc_agent` Python package:

* `state.py` — the cross-invocation state codec (`render_state` /
  `parse_state` / `next_iteration` / `can_iterate`), including a faithful
  model of the sentinel-regex scan and of the relevant fragment of the
  Python `json` module (`json.dumps` with `ensure_ascii=True` and compact
  separators, and `json.loads`);
* `llm.py` — the structured-output recovery ladder (`extract_json` and its
  helpers `_strip_code_fence`, `_extract_balanced_object`, `_repair_json`,
  `_escape_newlines_in_strings`);
* `agent_code.py` — the context-file ranking (`_score_file`,
  `_issue_tokens`, `_select_context_files`) and the file-edit application
  (`_apply_file_changes`);
* `agent_review.py` — the review verdict override policy and the
  escalation-dispatch step;
* `runner.py` — the command-runner call interface.

Python strings are modelled as lists of Unicode code points (`List Nat`),
which keeps the embedding faithful to `str` semantics (code-point indexing,
surrogates expressible) without appealing to any particular encoding.
-/

namespace Sdlc

/-- Code-point list of a Lean string literal; used to write concrete
Python-string values in examples and theorems. -/
def pystr (s : String) : List Nat :=
  s.data.map Char.toNat

/-- The whitespace class of Python's `re` module (`\s` on `str` patterns)
and of `str.strip()` / `str.isspace()`: ASCII whitespace, the C1 separator
controls, and the Unicode space characters. -/
def isPyWs (c : Nat) : Bool :=
  c = 32 || c = 9 || c = 10 || c = 13 || c = 12 || c = 11 ||
  (28 ≤ c && c ≤ 31) || c = 133 || c = 160 || c = 5760 ||
  (8192 ≤ c && c ≤ 8202) || c = 8232 || c = 8233 || c = 8239 || c = 8287 || c = 12288

/-- `startsWithL pre l` holds when `pre` is an initial segment of `l`
(Python `str.startswith` / a literal regex atom matching at the front). -/
def startsWithL : List Nat → List Nat → Bool
  | [], _ => true
  | _ :: _, [] => false
  | p :: ps, c :: cs => p = c && startsWithL ps cs

/-- Consume the literal `pre` from the front of `l`, returning the rest. -/
def dropLit : List Nat → List Nat → Option (List Nat)
  | [], l => some l
  | _ :: _, [] => none
  | p :: ps, c :: cs => if p = c then dropLit ps cs else none

/-- Python `needle in hay` on code-point lists. -/
def infixOfN (n : List Nat) : List Nat → Bool
  | [] => n.isEmpty
  | c :: cs => startsWithL n (c :: cs) || infixOfN n cs

/-! ## `state.py` — the persisted iteration state -/

/-- `state.State` from `state.py`: the single persisted record of a
code/review cycle.  Python `str` fields are code-point lists; `iteration`
and `max_iterations` are Python `int`s, hence `Int`. -/
structure State where
  target_repo : List Nat
  source_issue_url : List Nat
  iteration : Int
  max_iterations : Int
  last_verdict : List Nat
  created_at : List Nat
deriving DecidableEq, Repr

/-- `state.new_state`.  The Python function stamps `created_at` from the
ambient clock (`_now_iso()`); the clock reading is passed explicitly. -/
def new_state (target_repo source_issue_url : List Nat) (max_iterations : Int)
    (now : List Nat) : State :=
  { target_repo := target_repo
    source_issue_url := source_issue_url
    iteration := 0
    max_iterations := max_iterations
    last_verdict := pystr "pending"
    created_at := now }

/-- `state.next_iteration`: `dataclasses.replace` with `iteration + 1` and
the given verdict; every other field is carried over. -/
def next_iteration (state : State) (verdict : List Nat) : State :=
  { state with
    iteration := state.iteration + 1
    last_verdict := verdict }

/-- `state.can_iterate`: the continuation precondition. -/
def can_iterate (state : State) : Bool :=
  state.iteration < state.max_iterations

/-- Repeated application of `next_iteration` with a list of verdicts, one
per completed attempt — the "n repeated calls" of the monotonicity
property. -/
def advanceAll (s : State) (vs : List (List Nat)) : State :=
  vs.foldl next_iteration s

/-! ## `agent_code.py` — context-file ranking

Paths are repository-relative POSIX paths (`path.relative_to(repo_path).as_posix()`),
modelled as Lean strings over their characters.  `str.lower()` is modelled on
the ASCII range, which covers the regex character classes the tokenizer uses. -/

/-- Character predicate of the tokenizer's class `[A-Za-z0-9_.-]`. -/
def isTokenChar (c : Char) : Bool :=
  c.isAlphanum || c = '_' || c = '.' || c = '-'

/-- `startsWithL` over characters. -/
def startsWithC : List Char → List Char → Bool
  | [], _ => true
  | _ :: _, [] => false
  | p :: ps, c :: cs => p = c && startsWithC ps cs

/-- Python `needle in hay` on strings: substring containment. -/
def infixOf (n : List Char) : List Char → Bool
  | [] => n.isEmpty
  | c :: cs => startsWithC n (c :: cs) || infixOf n cs

/-- ASCII `str.lower()`. -/
def lowerStr (s : List Char) : List Char :=
  s.map Char.toLower

/-- Scanner accumulating the current run (reversed); emits a run when the
class breaks.  Together with `charRuns` this yields the maximal runs of
characters of class `cls` — the non-empty pieces of `re.split` on the
complementary class. -/
def charRunsAux (cls : Char → Bool) (cur : List Char) : List Char → List (List Char)
  | [] => if cur.isEmpty then [] else [cur.reverse]
  | c :: cs =>
    if cls c then charRunsAux cls (c :: cur) cs
    else if cur.isEmpty then charRunsAux cls [] cs
    else cur.reverse :: charRunsAux cls [] cs

/-- Maximal runs of characters of class `cls` in a character list. -/
def charRuns (cls : Char → Bool) (l : List Char) : List (List Char) :=
  charRunsAux cls [] l

/-- First-occurrence deduplication: the contents of a Python `set` built by
successive insertion, keeping each element once in insertion order. -/
def dedupAux (seen : List (List Char)) : List (List Char) → List (List Char)
  | [] => []
  | x :: xs => if seen.contains x then dedupAux seen xs else x :: dedupAux (x :: seen) xs

/-- First-occurrence deduplication of a list of tokens. -/
def dedupKeepFirst (l : List (List Char)) : List (List Char) :=
  dedupAux [] l

/-- `agent_code._issue_tokens`: lowercase the issue text, split it on runs
of characters outside `[A-Za-z0-9_.-]`, and keep the distinct pieces of
length at least 3. -/
def issue_tokens (text : String) : List (List Char) :=
  dedupKeepFirst ((charRuns isTokenChar (lowerStr text.data)).filter (fun t => 3 ≤ t.length))

/-- `pathlib.PurePath.name` of a relative POSIX path: the last segment
(everything after the last `/`). -/
def basenameOf (rel : List Char) : List Char :=
  (rel.reverse.takeWhile (· ≠ '/')).reverse

/-- `pathlib.PurePath.suffix`: the extension of the last segment, dot
included; empty when the last dot is leading or missing. -/
def suffixOf (name : List Char) : List Char :=
  let i := (name.reverse.takeWhile (· ≠ '.')).length
  -- `rfind('.')` position from the front is `name.length - 1 - i` when a dot exists.
  if i = name.length then []
  else
    let pos := name.length - 1 - i
    if 0 < pos && pos < name.length - 1 then name.drop pos else []

/-- `agent_code._score_file`, on the repo-relative path `rel` and the issue
text: sequential accumulation exactly as in the source (`score += ...`,
with a loop over the token set adding 3 per matching token). -/
def score_file (rel : String) (issue_text : String) : Nat :=
  ((issue_tokens issue_text).foldl
      (fun acc tok => if infixOf tok (lowerStr rel.data) then acc + 3 else acc)
      ((if startsWithC "tests/".data rel.data then 5 else 0) +
        (if startsWithC "src/".data rel.data || infixOf "/src/".data rel.data then 3 else 0))) +
  (if suffixOf (basenameOf rel.data) = ".py".data then 2 else 0) +
  (if lowerStr (basenameOf rel.data) = "readme.md".data then 1 else 0)

/-- The claim's reading of the scoring formula, written from the spec's
words: tokens are extracted by splitting on *non-alphanumeric* separators
(so `_`, `.` and `-` separate tokens), and the readme bonus applies only to
a *top-level* readme file. -/
def claimScore (rel : String) (issue_text : String) : Nat :=
  (if startsWithC "tests/".data rel.data then 5 else 0) +
  (if startsWithC "src/".data rel.data || infixOf "/src/".data rel.data then 3 else 0) +
  3 * ((dedupKeepFirst ((charRuns (fun c => c.isAlphanum) (lowerStr issue_text.data)).filter
          (fun t => 3 ≤ t.length))).filter
        (fun tok => infixOf tok (lowerStr rel.data))).length +
  (if suffixOf (basenameOf rel.data) = ".py".data then 2 else 0) +
  (if rel.data.contains '/' = false ∧ lowerStr (basenameOf rel.data) = "readme.md".data then 1 else 0)

/-- The amended scoring formula: as the claim, except that the issue
tokenizer keeps `_`, `.` and `-` inside tokens (it splits on characters
outside `[A-Za-z0-9_.-]`), and the readme bonus goes to any file whose
*basename* is `readme.md` case-insensitively, at any depth. -/
def amendedScore (rel : String) (issue_text : String) : Nat :=
  (if startsWithC "tests/".data rel.data then 5 else 0) +
  (if startsWithC "src/".data rel.data || infixOf "/src/".data rel.data then 3 else 0) +
  3 * ((issue_tokens issue_text).filter (fun tok => infixOf tok (lowerStr rel.data))).length +
  (if suffixOf (basenameOf rel.data) = ".py".data then 2 else 0) +
  (if lowerStr (basenameOf rel.data) = "readme.md".data then 1 else 0)

/-! ## `agent_code.py` — context-file selection (`_select_context_files`) -/

/-- Stable descending insertion used to model Python's stable
`sorted(candidates, key=score, reverse=True)`: each element is placed after
every already-placed element of greater or equal score. -/
def insertDesc (score : String → Nat) (x : String) : List String → List String
  | [] => [x]
  | y :: ys => if score x ≤ score y then y :: insertDesc score x ys else x :: y :: ys

/-- Stable descending sort by score (ties keep original traversal order). -/
def sortDesc (score : String → Nat) (l : List String) : List String :=
  l.foldl (fun acc x => insertDesc score x acc) []

/-- The de-duplicating selection loop of `_select_context_files` (the
`seen` set and `selected` list). -/
def selectDedup (seen : List String) : List String → List String
  | [] => []
  | x :: xs => if seen.contains x then selectDedup seen xs else x :: selectDedup (x :: seen) xs

/-- `agent_code._select_context_files`, as a function of the mandatory file
list, the candidate file list (both repo-relative, in traversal order) and
the issue text.  The final line transcribes the source:
`selected[:12] if len(selected) <= 12 else selected`. -/
def select_context_files (mandatory candidates : List String) (issue_text : String) :
    List String :=
  let ranked := sortDesc (fun p => score_file p issue_text) candidates
  let selected := selectDedup [] (mandatory ++ ranked)
  if selected.length ≤ 12 then selected.take 12 else selected

/-! ## `agent_review.py` — the verdict override policy

`run_review_agent` lines 111–136.  Command results enter the policy only
through their `returncode` (via `getattr(r, "returncode", 0)`), so test and
quality outcomes are modelled by their exit codes: `testResult` is the
`TestRun.result` field (`none` when no test command ran), `qualityResults`
the list of quality-check exit codes. -/

/-- `agent_review.ReviewResult`. -/
structure ReviewResult where
  verdict : String
  summary : String
  blocking : List String
  notes : List String
deriving DecidableEq, Repr

/-- The override policy applied to the model-reported result after the
checks have run (`agent_review.run_review_agent`, lines 111–136). -/
def applyOverride (result : ReviewResult) (testResult : Option Int)
    (qualityResults : List Int) : ReviewResult :=
  let tests_failed := testResult.isSome && !(testResult.getD 0 == 0)
  let tests_ok := testResult.isSome && (testResult.getD 0 == 0)
  let quality_ok := if qualityResults.isEmpty then true
    else qualityResults.all (fun rc => rc == 0)
  if tests_failed || !quality_ok then
    { verdict := "changes_requested", summary := result.summary
      blocking := result.blocking, notes := result.notes }
  else if tests_ok && quality_ok && !result.blocking.isEmpty then
    { verdict := "approve", summary := result.summary, blocking := []
      notes := result.notes ++ result.blocking.map (fun item => "Проверь вручную: " ++ item) }
  else if tests_ok && quality_ok && result.blocking.isEmpty then
    { verdict := "approve", summary := result.summary
      blocking := result.blocking, notes := result.notes }
  else result

/-! ## Escalation dispatch: `schedule_retry` vs the review path

`agent_code.run_code_agent` wraps its `dispatch_event` call in
`try/except` and posts a comment on failure (lines 73–85); the review path
calls `dispatch_event` bare (`agent_review.run_review_agent`, lines
170–173), so a dispatch failure there propagates out of the invocation.
Whether the external dispatch call raises is passed as `dispatchFails`. -/

/-- What the escalation step did. -/
inductive DispatchOutcome where
  | notScheduled
  | dispatched
  | failureReported
deriving DecidableEq, Repr

/-- `schedule_retry` from `agent_code.run_code_agent`: skip at the
iteration cap; otherwise dispatch, and catch + report a dispatch failure
(`except Exception` posting a comment).  It never propagates an error. -/
def schedule_retry (iteration max_iterations : Int) (dispatchFails : Bool) :
    Except Unit DispatchOutcome :=
  if max_iterations ≤ iteration then .ok .notScheduled
  else if dispatchFails then .ok .failureReported
  else .ok .dispatched

/-- The final escalation step of `agent_review.run_review_agent` (lines
170–173): on `changes_requested` below the iteration cap with a located
agent issue and a dispatch repository, `dispatch_event` is called with no
exception handler. -/
def review_escalation_step (verdict : String) (st : Option State)
    (agent_issue_number : Option Int) (dispatch_repo : Option String)
    (dispatchFails : Bool) : Except Unit Unit :=
  match st, agent_issue_number with
  | some s, some n =>
    if verdict = "changes_requested" ∧ s.iteration < s.max_iterations ∧ n ≠ 0 then
      match dispatch_repo with
      | some _ => if dispatchFails then .error () else .ok ()
      | none => .ok ()
    else .ok ()
  | _, _ => .ok ()

/-! ## `runner.run_cmd` — the call interface

`runner.run_cmd` is declared as `run_cmd(cmd: str, cwd: Path, timeout_sec:
int | None = None)`.  The call interface is modelled by the list of its
parameter names; a keyword call is accepted exactly when every keyword
names a parameter. -/

/-- Parameter names of `runner.run_cmd`'s signature. -/
def run_cmd_params : List String := ["cmd", "cwd", "timeout_sec"]

/-- The keyword arguments of the call in `agent_review._run_tests`:
`run_cmd(cmd, cwd=repo_path, timeout_sec=settings.test_timeout_sec,
extra_env=test_env)`. -/
def run_tests_call_kwargs : List String := ["cwd", "timeout_sec", "extra_env"]

/-- Python accepts a keyword call only when every keyword names a
parameter of the callee; otherwise the call raises `TypeError` before the
body runs. -/
def call_accepted (kwargs params : List String) : Bool :=
  kwargs.all (params.contains ·)

/-! ## `agent_code._apply_file_changes` — applying file edits

Absolute filesystem paths are lists of segments from the root; `resolve()`
is lexical normalisation (the invocation's scratch clone contains no
symlinks).  A file entry carries the payload's `path` and `content` fields
(`content` absent when the key is missing or JSON null). -/

/-- An entry of the payload's `files` list. -/
structure FileEntry where
  path : String
  content : Option String
deriving DecidableEq, Repr

/-- An absolute path, as segments from the filesystem root. -/
abbrev AbsPath := List (List Char)

/-- `str.strip()` on an entry's path. -/
def stripPy (s : String) : String :=
  String.mk ((((s.data.dropWhile (fun c => isPyWs c.toNat)).reverse).dropWhile
    (fun c => isPyWs c.toNat)).reverse)

/-- The segments of a relative POSIX path as `pathlib` keeps them: split on
`/`, drop empty components and single dots (`..` is kept). -/
def splitSegs (rel : String) : List (List Char) :=
  (charRuns (fun c => c ≠ '/') rel.data).filter (fun seg => seg ≠ ['.'])

/-- `repo_path / rel` in `pathlib`: an absolute right operand replaces the
left; otherwise the segments are appended. -/
def joinPath (base : AbsPath) (rel : String) : AbsPath :=
  if rel.data.head? = some '/' then splitSegs rel
  else (base : List (List Char)) ++ splitSegs rel

/-- `Path.resolve()` without symlinks: process `..` lexically, never rising
above the root. -/
def resolvePath (p : AbsPath) : AbsPath :=
  (p : List (List Char)).foldl
    (fun acc seg => if seg = "..".data then acc.dropLast else acc ++ [seg]) []

/-- `str(path)` of an absolute path. -/
def pathChars (p : AbsPath) : List Char :=
  if (p : List (List Char)).isEmpty then ['/']
  else (p : List (List Char)).foldl (fun acc seg => acc ++ '/' :: seg) []

/-- The acceptance test of `_apply_file_changes` (and of the identical loop
in `agent_review._apply_generated_tests`): non-empty stripped path, present
content, and `str(full_path).startswith(str(repo_path.resolve()))` after
resolution. -/
def acceptEntry (repo : AbsPath) (e : FileEntry) : Bool :=
  !(stripPy e.path).data.isEmpty && e.content.isSome &&
  startsWithC (pathChars (resolvePath repo))
    (pathChars (resolvePath (joinPath repo (stripPy e.path))))

/-- `agent_code._apply_file_changes`: walk the payload's `files` entries in
order, skip those failing the acceptance test, write the rest; returns the
written relative paths (the function's return value) and the performed
writes (resolved target, content). -/
def apply_file_changes (repo : AbsPath) :
    List FileEntry → List String × List (AbsPath × String)
  | [] => ([], [])
  | e :: es =>
    match e.content with
    | none => apply_file_changes repo es
    | some content =>
      if (stripPy e.path).data.isEmpty then apply_file_changes repo es
      else
        if startsWithC (pathChars (resolvePath repo))
            (pathChars (resolvePath (joinPath repo (stripPy e.path)))) then
          ((stripPy e.path) :: (apply_file_changes repo es).1,
            (resolvePath (joinPath repo (stripPy e.path)), content) ::
              (apply_file_changes repo es).2)
        else apply_file_changes repo es

/-! ## The JSON fragment used by `state.py` and `llm.py`

`json.loads` / `json.dumps(..., ensure_ascii=True, separators=(",", ":"))`
from the Python standard library, modelled over code-point lists.  Values
carry what the callers observe; for finite floats only the truncated
integer value (what `int()` would return, up to binary-vs-decimal rounding,
which no claim observes) is kept. -/

/-- A decoded Python JSON value. -/
inductive JValue where
  | jnull
  | jbool (b : Bool)
  | jint (n : Int)
  | jfloat (trunc : Int)
  | jnonfinite
  | jstr (s : List Nat)
  | jarr (elems : List JValue)
  | jobj (fields : List (List Nat × JValue))

/-- `dict` lookup on the parsed object: the last binding of a repeated key
wins, as in CPython's object construction. -/
def jGet (fields : List (List Nat × JValue)) (k : List Nat) : Option JValue :=
  (fields.reverse.find? (fun kv => kv.1 = k)).map (fun kv => kv.2)

/-- `dict.get(k, default)`. -/
def jGetD (fields : List (List Nat × JValue)) (k : List Nat) (d : JValue) : JValue :=
  (jGet fields k).getD d

/-- The whitespace the `json` module skips between tokens (`[ \t\n\r]`). -/
def isJsonWs (c : Nat) : Bool :=
  c = 32 || c = 9 || c = 10 || c = 13

/-- Skip inter-token JSON whitespace. -/
def skipJWs (l : List Nat) : List Nat :=
  l.dropWhile isJsonWs

/-- Value of one hex digit (`0-9a-fA-F`). -/
def hexVal (c : Nat) : Option Nat :=
  if 48 ≤ c ∧ c ≤ 57 then some (c - 48)
  else if 97 ≤ c ∧ c ≤ 102 then some (c - 87)
  else if 65 ≤ c ∧ c ≤ 70 then some (c - 55)
  else none

/-- Four hex digits of a `\uXXXX` escape. -/
def parseHex4 : List Nat → Option (Nat × List Nat)
  | a :: b :: c :: d :: rest =>
    match hexVal a, hexVal b, hexVal c, hexVal d with
    | some va, some vb, some vc, some vd =>
      some (((va * 16 + vb) * 16 + vc) * 16 + vd, rest)
    | _, _, _, _ => none
  | _ => none

/-- The short escapes of `json.decoder.BACKSLASH`. -/
def escMap (c : Nat) : Option Nat :=
  if c = 34 then some 34
  else if c = 92 then some 92
  else if c = 47 then some 47
  else if c = 98 then some 8
  else if c = 102 then some 12
  else if c = 110 then some 10
  else if c = 114 then some 13
  else if c = 116 then some 9
  else none

/-- The `\uXXXX` handling of `py_scanstring`, entered after the `\u`: four
hex digits, and when they form a high surrogate immediately followed by a
`\uXXXX` low surrogate, the combined code point. -/
def parseUEscape (r2 : List Nat) : Option (Nat × List Nat) :=
  match parseHex4 r2 with
  | none => none
  | some (v, r3) =>
    if 55296 ≤ v ∧ v ≤ 56319 then
      match r3 with
      | 92 :: 117 :: r4 =>
        match parseHex4 r4 with
        | none => none
        | some (v2, r5) =>
          if 56320 ≤ v2 ∧ v2 ≤ 57343 then
            some (65536 + (v - 55296) * 1024 + (v2 - 56320), r5)
          else some (v, r3)
      | _ => some (v, r3)
    else some (v, r3)

/-- `json.decoder.py_scanstring` (strict mode), entered after the opening
quote: literal characters up to the closing quote, control characters
rejected, short escapes and `\uXXXX` (via `parseUEscape`) decoded.  `fuel`
bounds the recursion; one unit is spent per scanned escape or character,
so any fuel above the remaining input length is enough. -/
def scanString : Nat → List Nat → Option (List Nat × List Nat)
  | 0, _ => none
  | _ + 1, [] => none
  | fuel + 1, c :: rest =>
    if c = 34 then some ([], rest)
    else if c = 92 then
      match rest with
      | [] => none
      | e :: r2 =>
        if e = 117 then
          match parseUEscape r2 with
          | none => none
          | some (ch, r3) => (scanString fuel r3).map (fun p => (ch :: p.1, p.2))
        else
          match escMap e with
          | some ch => (scanString fuel r2).map (fun p => (ch :: p.1, p.2))
          | none => none
    else if c < 32 then none
    else (scanString fuel rest).map (fun p => (c :: p.1, p.2))

/-- ASCII digit. -/
def isDigitN (c : Nat) : Bool :=
  48 ≤ c && c ≤ 57

/-- Numeric value of a most-significant-first ASCII digit run. -/
def digitsVal (ds : List Nat) : Nat :=
  ds.foldl (fun acc d => acc * 10 + (d - 48)) 0

/-- `float` overflow threshold: decimal values of magnitude at least
`2^1024 - 2^971` round to infinity under IEEE-754 binary64. -/
def floatOvfl (m : Nat) (e10 : Int) : Bool :=
  if 0 ≤ e10 then 2 ^ 1024 - 2 ^ 971 ≤ m * 10 ^ e10.toNat
  else 2 ^ 1024 - 2 ^ 971 ≤ (m / 10 ^ (-e10).toNat : Nat) + 1 &&
    (2 ^ 1024 - 2 ^ 971) * 10 ^ (-e10).toNat ≤ m

/-- Truncation toward zero of `sgn * m * 10^e10` — the `int()` of a finite
decimal float literal (up to the binary rounding of the last few digits,
which no claim observes). -/
def decTrunc (neg : Bool) (m : Nat) (e10 : Int) : Int :=
  let v : Nat := if 0 ≤ e10 then m * 10 ^ e10.toNat else m / 10 ^ (-e10).toNat
  if neg then -(v : Int) else (v : Int)

/-- The optional fraction of `NUMBER_RE` (`(\.\d+)?`): a dot followed by at
least one digit, or nothing consumed. -/
def parseFrac : List Nat → List Nat × List Nat
  | 46 :: d :: r =>
    if isDigitN d then ((d :: r).takeWhile isDigitN, (d :: r).dropWhile isDigitN)
    else ([], 46 :: d :: r)
  | r => ([], r)

/-- The optional exponent of `NUMBER_RE` (`([eE][-+]?\d+)?`): `e`/`E`, an
optional sign and at least one digit, or nothing consumed. -/
def parseExp : List Nat → List Nat × Bool × List Nat
  | e :: r4a =>
    if e = 101 ∨ e = 69 then
      let (negE, r4b) : Bool × List Nat := match r4a with
        | 45 :: t => (true, t)
        | 43 :: t => (false, t)
        | _ => (false, r4a)
      match r4b with
      | d :: _ =>
        if isDigitN d then (r4b.takeWhile isDigitN, negE, r4b.dropWhile isDigitN)
        else ([], false, e :: r4a)
      | [] => ([], false, e :: r4a)
    else ([], false, e :: r4a)
  | [] => ([], false, [])

/-- The int/float conversion after the integer digits `ids`: an integer
when neither fraction nor exponent follows, else a float (overflow to
infinity per IEEE-754 binary64, which `int()` then rejects). -/
def mkNum (neg : Bool) (ids : List Nat) (r3 : List Nat) : Option (JValue × List Nat) :=
  let (fds, r4) := parseFrac r3
  let (eds, negE, r5) := parseExp r4
  if fds.isEmpty ∧ eds.isEmpty then
    some (JValue.jint (if neg then -(digitsVal ids : Int) else (digitsVal ids : Int)), r3)
  else
    let m := digitsVal (ids ++ fds)
    let e10 : Int := (if negE then -(digitsVal eds : Int) else (digitsVal eds : Int)) - fds.length
    if floatOvfl m e10 then some (JValue.jnonfinite, r5)
    else some (JValue.jfloat (decTrunc neg m e10), r5)

/-- The integer-part dispatch of `NUMBER_RE` after the optional sign:
`0` or a nonzero-led digit run, then `mkNum`. -/
def parseIntPart (neg : Bool) : List Nat → Option (JValue × List Nat)
  | [] => none
  | d :: r2 =>
    if d = 48 then mkNum neg [48] r2
    else if 49 ≤ d ∧ d ≤ 57 then
      mkNum neg (d :: r2.takeWhile isDigitN) (r2.dropWhile isDigitN)
    else none

/-- `json.scanner.NUMBER_RE` followed by the int/float conversion: an
optional minus sign, then the integer part, fraction and exponent.
`none` when the regex does not match at this position. -/
def parseNumber (l : List Nat) : Option (JValue × List Nat) :=
  match l with
  | [] => none
  | c :: r0 => if c = 45 then parseIntPart true r0 else parseIntPart false (c :: r0)

mutual

/-- `json.scanner.py_make_scanner`'s `_scan_once`, with explicit fuel for
the mutual recursion (one unit per nested scan; each unit corresponds to
at least one consumed character, so any fuel above the input length is
enough). -/
def parseValue : Nat → List Nat → Option (JValue × List Nat)
  | 0, _ => none
  | _ + 1, [] => none
  | fuel + 1, c :: rest =>
    if c = 34 then (scanString (rest.length + 1) rest).map (fun p => (JValue.jstr p.1, p.2))
    else if c = 123 then parseObjBody fuel rest
    else if c = 91 then parseArrBody fuel rest
    else if c = 110 then (dropLit (pystr "ull") rest).map (fun r => (JValue.jnull, r))
    else if c = 116 then (dropLit (pystr "rue") rest).map (fun r => (JValue.jbool true, r))
    else if c = 102 then (dropLit (pystr "alse") rest).map (fun r => (JValue.jbool false, r))
    else
      match parseNumber (c :: rest) with
      | some p => some p
      | none =>
        if c = 78 then (dropLit (pystr "aN") rest).map (fun r => (JValue.jnonfinite, r))
        else if c = 73 then (dropLit (pystr "nfinity") rest).map (fun r => (JValue.jnonfinite, r))
        else if c = 45 then (dropLit (pystr "Infinity") rest).map (fun r => (JValue.jnonfinite, r))
        else none

/-- `json.decoder.JSONObject` after the opening brace: optional whitespace,
then an empty object or the first key's opening quote. -/
def parseObjBody : Nat → List Nat → Option (JValue × List Nat)
  | 0, _ => none
  | fuel + 1, l =>
    match skipJWs l with
    | 125 :: r => some (JValue.jobj [], r)
    | 34 :: r => (parseMembers fuel r).map (fun p => (JValue.jobj p.1, p.2))
    | _ => none

/-- The member loop of `JSONObject`, entered after a key's opening quote:
key, colon, value, then a closing brace or a comma and the next key's
opening quote. -/
def parseMembers : Nat → List Nat → Option (List (List Nat × JValue) × List Nat)
  | 0, _ => none
  | fuel + 1, r =>
    match scanString (r.length + 1) r with
    | none => none
    | some (key, r2) =>
      match skipJWs r2 with
      | 58 :: r3 =>
        match parseValue fuel (skipJWs r3) with
        | none => none
        | some (v, r4) =>
          match skipJWs r4 with
          | 125 :: r5 => some ([(key, v)], r5)
          | 44 :: r5 =>
            match skipJWs r5 with
            | 34 :: r6 => (parseMembers fuel r6).map (fun p => ((key, v) :: p.1, p.2))
            | _ => none
          | _ => none
      | _ => none

/-- `json.decoder.JSONArray` after the opening bracket. -/
def parseArrBody : Nat → List Nat → Option (JValue × List Nat)
  | 0, _ => none
  | fuel + 1, l =>
    match skipJWs l with
    | 93 :: r => some (JValue.jarr [], r)
    | l1 => (parseElems fuel l1).map (fun p => (JValue.jarr p.1, p.2))

/-- The element loop of `JSONArray`. -/
def parseElems : Nat → List Nat → Option (List JValue × List Nat)
  | 0, _ => none
  | fuel + 1, l =>
    match parseValue fuel l with
    | none => none
    | some (v, r) =>
      match skipJWs r with
      | 93 :: r2 => some ([v], r2)
      | 44 :: r2 => (parseElems fuel (skipJWs r2)).map (fun p => (v :: p.1, p.2))
      | _ => none

end

/-- `json.loads`: skip leading whitespace, scan one value, require only
whitespace to follow.  All decode failures are `JSONDecodeError`, merged
into `none`. -/
def jloads (l : List Nat) : Option JValue :=
  match parseValue (l.length + 1) (skipJWs l) with
  | none => none
  | some (v, rest) => if skipJWs rest = [] then some v else none

/-! ## Python coercions used by `state._state_from_dict` -/

/-- The exception kinds `int()` can raise. -/
inductive PyErr where
  | typeError
  | valueError
deriving DecidableEq, Repr

/-- Digit run of a Python `int()` string literal: digits with single
underscores allowed between digits. -/
def digitsUVal (acc : Nat) : List Nat → Option Nat
  | [] => some acc
  | 95 :: d :: rest =>
    if isDigitN d then digitsUVal (acc * 10 + (d - 48)) rest else none
  | d :: rest =>
    if isDigitN d then digitsUVal (acc * 10 + (d - 48)) rest else none

/-- `int(s)` on a string: strip whitespace, optional sign, ASCII digit run
(single underscores between digits permitted); `none` is `ValueError`. -/
def pyIntOfStr (s : List Nat) : Option Int :=
  let t := ((s.dropWhile isPyWs).reverse.dropWhile isPyWs).reverse
  let (neg, ds) : Bool × List Nat := match t with
    | 45 :: ds => (true, ds)
    | 43 :: ds => (false, ds)
    | _ => (false, t)
  match ds with
  | [] => none
  | d :: rest =>
    if isDigitN d then
      (digitsUVal (d - 48) rest).map (fun n => if neg then -(n : Int) else (n : Int))
    else none

/-- `int(x)` on a decoded JSON value: ints and bools pass, finite floats
truncate, `NaN`/`Infinity` raise `ValueError`/`OverflowError` (merged as
`valueError`), numeric strings parse, everything else raises `TypeError`. -/
def pyInt : JValue → Except PyErr Int
  | JValue.jint n => .ok n
  | JValue.jbool b => .ok (if b then 1 else 0)
  | JValue.jfloat t => .ok t
  | JValue.jnonfinite => .error .valueError
  | JValue.jstr s =>
    match pyIntOfStr s with
    | some n => .ok n
    | none => .error .valueError
  | JValue.jnull => .error .typeError
  | JValue.jarr _ => .error .typeError
  | JValue.jobj _ => .error .typeError

/-- Base-10 digits of `n`, least significant first, with explicit fuel
(`n` itself is always enough) so the kernel can evaluate it. -/
def decDigitsRev (fuel : Nat) (n : Nat) : List Nat :=
  match fuel with
  | 0 => []
  | f + 1 => if n = 0 then [] else n % 10 :: decDigitsRev f (n / 10)

/-- Decimal digits of a natural number, most significant first. -/
def natDec (n : Nat) : List Nat :=
  if n = 0 then [48] else ((decDigitsRev n n).reverse).map (· + 48)

/-- Decimal form of a Python integer (`repr(int)`). -/
def intDec (n : Int) : List Nat :=
  if n < 0 then 45 :: natDec n.natAbs else natDec n.natAbs

/-- `str(x)` on a decoded JSON value.  Strings pass through unchanged —
the only case any claim observes; the remaining branches are total
renderings whose exact text (`repr` of containers, float formatting) no
claim depends on. -/
def pyStrCoerce : JValue → List Nat
  | JValue.jstr s => s
  | JValue.jint n => intDec n
  | JValue.jbool b => if b then pystr "True" else pystr "False"
  | JValue.jnull => pystr "None"
  | JValue.jfloat t => intDec t ++ pystr ".0"
  | JValue.jnonfinite => pystr "nan"
  | JValue.jarr _ => pystr "[...]"
  | JValue.jobj _ => pystr "(...)"

/-! ## `state.py` — the codec proper -/

/-- `state._state_from_dict`: build a `State` from the parsed payload with
the documented defaults; the `int()` coercions can raise (`iteration`
first, matching Python's argument evaluation order). -/
def state_from_dict (fields : List (List Nat × JValue)) : Except PyErr State :=
  match pyInt (jGetD fields (pystr "iteration") (JValue.jint 0)),
      pyInt (jGetD fields (pystr "max_iterations") (JValue.jint 5)) with
  | .ok it, .ok mx =>
    .ok { target_repo := pyStrCoerce (jGetD fields (pystr "target_repo") (JValue.jstr []))
          source_issue_url := pyStrCoerce (jGetD fields (pystr "source_issue_url") (JValue.jstr []))
          iteration := it
          max_iterations := mx
          last_verdict := pyStrCoerce (jGetD fields (pystr "last_verdict") (JValue.jstr (pystr "unknown")))
          created_at := pyStrCoerce (jGetD fields (pystr "created_at") (JValue.jstr [])) }
  | .error e, _ => .error e
  | _, .error e => .error e

/-- Lowercase hex digit (`'%04x'`). -/
def hexChar (d : Nat) : Nat :=
  if d < 10 then 48 + d else 87 + d

/-- Four lowercase hex digits of a code unit. -/
def hex4 (n : Nat) : List Nat :=
  [hexChar (n / 4096 % 16), hexChar (n / 256 % 16), hexChar (n / 16 % 16), hexChar (n % 16)]

/-- `json.encoder.py_encode_basestring_ascii` on one character: `"` and
`\` escaped, the short control escapes, `\u00XX` for other controls,
ASCII printables literal, `\uXXXX` for the rest of the BMP, surrogate
pairs above it. -/
def escChar (c : Nat) : List Nat :=
  if c = 34 then [92, 34]
  else if c = 92 then [92, 92]
  else if c = 8 then [92, 98]
  else if c = 12 then [92, 102]
  else if c = 10 then [92, 110]
  else if c = 13 then [92, 114]
  else if c = 9 then [92, 116]
  else if c < 32 then 92 :: 117 :: hex4 c
  else if c ≤ 126 then [c]
  else if c ≤ 65535 then 92 :: 117 :: hex4 c
  else 92 :: 117 :: hex4 (55296 + (c - 65536) / 1024) ++
    92 :: 117 :: hex4 (56320 + (c - 65536) % 1024)

/-- Body of an `ensure_ascii` JSON string literal. -/
def encStrBody (s : List Nat) : List Nat :=
  (s.map escChar).flatten

/-- An `ensure_ascii` JSON string literal, quotes included. -/
def encStr (s : List Nat) : List Nat :=
  34 :: encStrBody s ++ [34]

/-- `json.dumps(_state_to_dict(state), ensure_ascii=True,
separators=(",", ":"))`: the six fields in dict-literal order, compact
separators. -/
def dumpsStateDict (s : State) : List Nat :=
  [123] ++ encStr (pystr "target_repo") ++ [58] ++ encStr s.target_repo ++ [44] ++
  encStr (pystr "source_issue_url") ++ [58] ++ encStr s.source_issue_url ++ [44] ++
  encStr (pystr "iteration") ++ [58] ++ intDec s.iteration ++ [44] ++
  encStr (pystr "max_iterations") ++ [58] ++ intDec s.max_iterations ++ [44] ++
  encStr (pystr "last_verdict") ++ [58] ++ encStr s.last_verdict ++ [44] ++
  encStr (pystr "created_at") ++ [58] ++ encStr s.created_at ++ [125]

/-- `state.render_state`: the sentinel-tagged single-line blob. -/
def render_state (s : State) : List Nat :=
  pystr "<!-- SDLC_AGENT_STATE: " ++ dumpsStateDict s ++ pystr " -->"

/-- Does the input begin with the literal `-->`? -/
def startsWithArrow (l : List Nat) : Bool :=
  startsWithL (pystr "-->") l

/-- The tail of the pattern after the captured group: greedy `\s*` then the
literal `-->`.  Since `-` is not whitespace the greedy run is forced, so
the match condition is: drop the maximal whitespace run, then `-->`. -/
def wsThenArrow (l : List Nat) : Bool :=
  startsWithArrow (l.dropWhile isPyWs)

/-- The lazy `.*?\}` of `_STATE_RE` followed by `\s*-->`: scan forward and
stop at the first `}` whose remainder matches `\s*-->`; the returned list
is the captured content after the opening brace, closing brace included. -/
def lazyScan : List Nat → Option (List Nat)
  | [] => none
  | c :: rest =>
    if c = 125 ∧ wsThenArrow rest then some [125]
    else (lazyScan rest).map (fun g => c :: g)

/-- `_STATE_RE` matched at one position: the literal `<!--`, a forced
greedy whitespace run (the next pattern atom `S` is not whitespace), the
literal `SDLC_AGENT_STATE:`, another forced whitespace run (the next atom
`{` is not whitespace), then the captured `\{.*?\}` with its `\s*-->`
tail.  Returns capture group 1. -/
def matchAt (l : List Nat) : Option (List Nat) :=
  match dropLit (pystr "<!--") l with
  | none => none
  | some l1 =>
    match dropLit (pystr "SDLC_AGENT_STATE:") (l1.dropWhile isPyWs) with
    | none => none
    | some l2 =>
      match l2.dropWhile isPyWs with
      | 123 :: rest => (lazyScan rest).map (fun g => 123 :: g)
      | _ => none

/-- `re.search` of `_STATE_RE`: the match at the leftmost position where
one exists. -/
def findStateMatch : List Nat → Option (List Nat)
  | [] => none
  | c :: rest =>
    match matchAt (c :: rest) with
    | some g => some g
    | none => findStateMatch rest

/-- `state.parse_state`: locate the sentinel blob, `json.loads` the
captured payload (a `JSONDecodeError` yields `None`), then coerce the
fields — where the uncaught `int()` exceptions surface.  The captured
group always begins with `{`, so a successful parse is an object; the
non-object branch is unreachable. -/
def parse_state (text : List Nat) : Except PyErr (Option State) :=
  match findStateMatch text with
  | none => .ok none
  | some payload =>
    match jloads payload with
    | none => .ok none
    | some (JValue.jobj fields) => (state_from_dict fields).map some
    | some _ => .error .typeError

/-- Does the payload stop the lazy scan early: a `}` strictly before the
end whose remainder (within the payload) matches `\s*-->`?  When this is
false, the captured group of `parse_state` on rendered text is the whole
payload. -/
def hasEarlyStop : List Nat → Bool
  | [] => false
  | c :: rest => (c = 125 && rest ≠ [] && wsThenArrow rest) || hasEarlyStop rest

/-! ## `llm.py` — structured-output recovery -/

/-- `str.strip()` on a code-point list. -/
def stripPyWsN (l : List Nat) : List Nat :=
  ((l.dropWhile isPyWs).reverse.dropWhile isPyWs).reverse

/-- ASCII `str.lower()` on a code point (enough for the case-insensitive
`json` fence tag). -/
def lowerN (c : Nat) : Nat :=
  if 65 ≤ c ∧ c ≤ 90 then c + 32 else c

/-- Content before the first triple-backtick, if one occurs. -/
def takeUntilFence : List Nat → Option (List Nat)
  | [] => none
  | c :: rest =>
    if startsWithL (pystr "```") (c :: rest) then some []
    else (takeUntilFence rest).map (fun g => c :: g)

/-- One attempt of the fence regex at a fixed position: the opening
` ``` `, an optional case-insensitive `json` tag, then the lazily-matched
body up to the next ` ``` `, whitespace-trimmed (the `\s*` on both sides
of the lazy group, re-applied by the caller's `.strip()`). -/
def tryFenceAt (l : List Nat) : Option (List Nat) :=
  match dropLit (pystr "```") l with
  | none => none
  | some r0 =>
    let r1 := if startsWithL (pystr "json") (r0.take 4 |>.map lowerN) then r0.drop 4 else r0
    (takeUntilFence r1).map stripPyWsN

/-- `llm._strip_code_fence`: `re.search` of the fence pattern — the
attempt at the leftmost position where the whole pattern (closing fence
included) matches. -/
def strip_code_fence : List Nat → Option (List Nat)
  | [] => none
  | c :: rest =>
    match tryFenceAt (c :: rest) with
    | some g => some g
    | none => strip_code_fence rest

/-- The character loop of `llm._extract_balanced_object`: string-literal
state (escape sequences respected), brace depth, and the collected span
once a top-level `{` has started (`acc` holds it reversed). -/
def balancedAux (inString escape : Bool) (depth : Nat) (started : Bool)
    (acc : List Nat) : List Nat → Option (List Nat)
  | [] => none
  | c :: rest =>
    let acc' := if started then c :: acc else acc
    if inString then
      if escape then balancedAux true false depth started acc' rest
      else if c = 92 then balancedAux true true depth started acc' rest
      else if c = 34 then balancedAux false false depth started acc' rest
      else balancedAux true false depth started acc' rest
    else if c = 34 then balancedAux true false depth started acc' rest
    else if c = 123 then
      if depth = 0 then balancedAux false false 1 true [123] rest
      else balancedAux false false (depth + 1) started acc' rest
    else if c = 125 then
      if depth = 0 then balancedAux false false 0 started acc rest
      else if depth = 1 then some acc'.reverse
      else balancedAux false false (depth - 1) started acc' rest
    else balancedAux false false depth started acc' rest

/-- `llm._extract_balanced_object`: the first top-level balanced `{...}`
span, tracking string-literal state. -/
def extract_balanced_object (l : List Nat) : Option (List Nat) :=
  balancedAux false false 0 false [] l

/-- `text.replace("\r\n", "\n")`. -/
def replaceCRLF : List Nat → List Nat
  | [] => []
  | 13 :: 10 :: rest => 10 :: replaceCRLF rest
  | c :: rest => c :: replaceCRLF rest

/-- One attempted match of `,\s*([}\]])` at a comma: the forced greedy
whitespace run, then the closing bracket. -/
def commaMatch (l : List Nat) : Option (Nat × List Nat) :=
  match l.dropWhile isPyWs with
  | 125 :: after => some (125, after)
  | 93 :: after => some (93, after)
  | _ => none

/-- `re.sub(r",\s*([}\]])", r"\1", text)`: left-to-right non-overlapping
replacement, scanning resumes after each match.  `fuel` bounds the
recursion (a unit per consumed character suffices). -/
def stripTrailingCommas : Nat → List Nat → List Nat
  | 0, l => l
  | _ + 1, [] => []
  | fuel + 1, 44 :: rest =>
    match commaMatch rest with
    | some (br, after) => br :: stripTrailingCommas fuel after
    | none => 44 :: stripTrailingCommas fuel rest
  | fuel + 1, c :: rest => c :: stripTrailingCommas fuel rest

/-- The state machine of `llm._escape_newlines_in_strings`. -/
def escNlAux (inString escape : Bool) : List Nat → List Nat
  | [] => []
  | c :: rest =>
    if inString then
      if escape then c :: escNlAux true false rest
      else if c = 92 then c :: escNlAux true true rest
      else if c = 34 then c :: escNlAux false false rest
      else if c = 10 then 92 :: 110 :: escNlAux true false rest
      else c :: escNlAux true false rest
    else if c = 34 then c :: escNlAux true false rest
    else c :: escNlAux false false rest

/-- `llm._escape_newlines_in_strings`: literal newlines inside string
literals become `\n`; newlines outside strings are untouched. -/
def escape_newlines_in_strings (l : List Nat) : List Nat :=
  escNlAux false false l

/-- `llm._repair_json`: normalise CRLF, strip trailing commas before a
closing bracket, escape newlines inside strings. -/
def repair_json (l : List Nat) : List Nat :=
  escape_newlines_in_strings
    (stripTrailingCommas ((replaceCRLF l).length + 1) (replaceCRLF l))

/-- The candidate loop of `llm.extract_json`: each candidate is tried
as-is and then repaired; the first parse wins. -/
def tryCandidates : List (List Nat) → Except Unit JValue
  | [] => .error ()
  | c :: cs =>
    match jloads c with
    | some v => .ok v
    | none =>
      match jloads (repair_json c) with
      | some v => .ok v
      | none => tryCandidates cs

/-- `llm.extract_json`: strip the reply, fail on emptiness, then try the
trimmed text, the fenced block (when a triple backtick occurs and the
extracted block is non-empty), and the balanced-brace span, each direct
and repaired. -/
def extract_json (text : List Nat) : Except Unit JValue :=
  let t := stripPyWsN text
  if t.isEmpty then .error ()
  else
    tryCandidates ([t] ++
      (if infixOfN (pystr "```") t then
        match strip_code_fence t with
        | some s => if s.isEmpty then [] else [s]
        | none => []
      else []) ++
      (match extract_balanced_object t with
      | some b => [b]
      | none => []))

/-- Did an `Except` computation finish without raising? -/
def exceptOk {ε α : Type} : Except ε α → Bool
  | .ok _ => true
  | .error _ => false

/-! ## Round-trip of the state codec (C1)

The forward direction needs: the string encoder/decoder pair, the number
encoder/decoder pair, the six-member object composition, and the sentinel
regex locating exactly the rendered payload. -/

/-- A well-formed Python text string: scalar Unicode code points (no
surrogates).  The `State` fields of a valid `IterationState` are text. -/
def WfStr (s : List Nat) : Prop :=
  ∀ c ∈ s, c < 1114112 ∧ ¬(55296 ≤ c ∧ c ≤ 57343)

/-- A leaf payload value of the state dict: a string or an integer. -/
inductive JLeaf where
  | str (s : List Nat)
  | int (n : Int)

/-- Encoding of a leaf as `json.dumps` writes it. -/
def encLeaf : JLeaf → List Nat
  | .str s => encStr s
  | .int n => intDec n

/-- The decoded value of a leaf. -/
def leafVal : JLeaf → JValue
  | .str s => JValue.jstr s
  | .int n => JValue.jint n

/-- Well-formedness of a leaf (string leaves are text). -/
def wfLeaf : JLeaf → Prop
  | .str s => WfStr s
  | .int _ => True

/-- The compact encoding of the members after the first one, closing brace
included: `,"k":v,"k":v...}`. -/
def membersEnc : List (List Nat × JLeaf) → List Nat
  | [] => [125]
  | (k, v) :: more => 44 :: (encStr k ++ (58 :: (encLeaf v ++ membersEnc more)))

/-- The five members of the state dict after `target_repo`, as leaves, in
`_state_to_dict`'s literal order. -/
def stateLeafs (s : State) : List (List Nat × JLeaf) :=
  [(pystr "source_issue_url", JLeaf.str s.source_issue_url),
   (pystr "iteration", JLeaf.int s.iteration),
   (pystr "max_iterations", JLeaf.int s.max_iterations),
   (pystr "last_verdict", JLeaf.str s.last_verdict),
   (pystr "created_at", JLeaf.str s.created_at)]

/-- The decoded object `json.loads` recovers from the dumped state dict. -/
def stateFields (s : State) : List (List Nat × JValue) :=
  [(pystr "target_repo", JValue.jstr s.target_repo),
   (pystr "source_issue_url", JValue.jstr s.source_issue_url),
   (pystr "iteration", JValue.jint s.iteration),
   (pystr "max_iterations", JValue.jint s.max_iterations),
   (pystr "last_verdict", JValue.jstr s.last_verdict),
   (pystr "created_at", JValue.jstr s.created_at)]

theorem advanceAll_iteration (s : State) (vs : List (List Nat)) :
    (advanceAll s vs).iteration = s.iteration + vs.length := by
  induction vs generalizing s with
  | nil => simp [advanceAll]
  | cons v vs ih =>
    simp only [advanceAll, List.foldl_cons] at *
    rw [ih]
    simp [next_iteration]
    omega

theorem advanceAll_max_iterations (s : State) (vs : List (List Nat)) :
    (advanceAll s vs).max_iterations = s.max_iterations := by
  induction vs generalizing s with
  | nil => simp [advanceAll]
  | cons v vs ih =>
    simp only [advanceAll, List.foldl_cons] at *
    rw [ih]
    rfl

/-- C3: `next_iteration` returns a record with `iteration + 1` and
`last_verdict = verdict` and every other field unchanged; `n` repeated
calls starting from `iteration = k` reach exactly `k + n`; and after
`max_iterations` advances from a fresh state (`new_state`, which starts at
`iteration = 0`) the continuation precondition `can_iterate` is false. -/
theorem next_iteration_frame_and_termination :
    ∀ (s : State) (v : List Nat),
      (next_iteration s v).iteration = s.iteration + 1 ∧
      (next_iteration s v).last_verdict = v ∧
      (next_iteration s v).target_repo = s.target_repo ∧
      (next_iteration s v).source_issue_url = s.source_issue_url ∧
      (next_iteration s v).max_iterations = s.max_iterations ∧
      (next_iteration s v).created_at = s.created_at ∧
      (∀ vs : List (List Nat),
        (advanceAll s vs).iteration = s.iteration + vs.length) ∧
      (∀ (tgt url now : List Nat) (m : Int) (vs : List (List Nat)),
        (vs.length : Int) = m →
        can_iterate (advanceAll (new_state tgt url m now) vs) = false) := by
  intro s v
  refine ⟨rfl, rfl, rfl, rfl, rfl, rfl, fun vs => advanceAll_iteration s vs, ?_⟩
  intro tgt url now m vs hlen
  have h := advanceAll_iteration (new_state tgt url m now) vs
  have h2 := advanceAll_max_iterations (new_state tgt url m now) vs
  simp only [can_iterate]
  rw [h, h2]
  simp only [new_state, decide_eq_false_iff_not, not_lt]
  omega

/-- Witness for C3 at a concrete fresh state with `max_iterations = 3` and
three advances. -/
theorem next_iteration_frame_and_termination_witness :
    can_iterate (advanceAll
      (new_state (pystr "octo/repo") (pystr "https://issue/1") 3 (pystr "t0"))
      [pystr "in_progress", pystr "pending_review", pystr "changes_requested"]) = false := by
  exact (next_iteration_frame_and_termination
      (new_state (pystr "octo/repo") (pystr "https://issue/1") 3 (pystr "t0"))
      (pystr "x")).2.2.2.2.2.2.2
    (pystr "octo/repo") (pystr "https://issue/1") (pystr "t0") 3
    [pystr "in_progress", pystr "pending_review", pystr "changes_requested"]
    (by decide)

theorem foldl_score_count (relL : List Char) (toks : List (List Char)) (base : Nat) :
    toks.foldl (fun acc tok => if infixOf tok relL then acc + 3 else acc) base =
      base + 3 * (toks.filter (fun tok => infixOf tok relL)).length := by
  induction toks generalizing base with
  | nil => simp
  | cons t ts ih =>
    simp only [List.foldl_cons, List.filter_cons]
    by_cases h : infixOf t relL
    · simp only [h, if_true, ih]
      simp
      omega
    · simp only [h, if_false, ih]
      simp [h]

/-- C9 counterexample: the scoring formula as the claim states it disagrees
with the code.  `docs/readme.md` (not top-level) still gets the readme
bonus in the code; and with issue text `foo_bar` the code keeps the single
token `foo_bar` (no match against `foo.py`) where the claim's splitting on
non-alphanumeric separators would yield `foo` and `bar` (a match). -/
theorem score_file_claim_counterexample :
    score_file "docs/readme.md" "" = 1 ∧ claimScore "docs/readme.md" "" = 0 ∧
    score_file "foo.py" "foo_bar" = 2 ∧ claimScore "foo.py" "foo_bar" = 5 ∧
    score_file "docs/readme.md" "" ≠ claimScore "docs/readme.md" "" ∧
    score_file "foo.py" "foo_bar" ≠ claimScore "foo.py" "foo_bar" := by
  refine ⟨by decide, by decide, by decide, by decide, by decide, by decide⟩

/-- C9 amended: for every repo-relative path and issue text, the code's
score equals the sum of the five addends, with the tokenizer keeping
`_`/`.`/`-` inside tokens and the readme bonus keyed on the basename at any
depth. -/
theorem score_file_amended (rel : String) (issue_text : String) :
    score_file rel issue_text = amendedScore rel issue_text := by
  unfold score_file amendedScore
  rw [foldl_score_count]

/-- C5: with thirteen qualifying candidates and no mandatory files the
selection keeps all thirteen — the truncation guard is inverted, so the
result exceeds the fixed maximum of 12. -/
theorem select_context_files_no_bound :
    (select_context_files []
      ["f01.md", "f02.md", "f03.md", "f04.md", "f05.md", "f06.md", "f07.md",
       "f08.md", "f09.md", "f10.md", "f11.md", "f12.md", "f13.md"] "").length = 13 := by
  decide

/-- C6: the final verdict obeys the override policy — a failing test run or
failing quality check forces `changes_requested` regardless of the model's
verdict; a clean run with model-reported `approve` and non-empty blocking
items is downgraded to `approve` with the blocking items folded into the
notes; a clean run with `approve` and no blocking items passes through
unchanged. -/
theorem review_override_policy (r : ReviewResult) (t : Option Int) (q : List Int) :
    (∀ rc, t = some rc → rc ≠ 0 →
      (applyOverride r t q).verdict = "changes_requested") ∧
    ((∃ rc ∈ q, rc ≠ 0) →
      (applyOverride r t q).verdict = "changes_requested") ∧
    (t = some 0 → (∀ rc ∈ q, rc = 0) → r.verdict = "approve" → r.blocking ≠ [] →
      applyOverride r t q =
        { verdict := "approve", summary := r.summary, blocking := []
          notes := r.notes ++ r.blocking.map (fun item => "Проверь вручную: " ++ item) }) ∧
    (t = some 0 → (∀ rc ∈ q, rc = 0) → r.verdict = "approve" → r.blocking = [] →
      applyOverride r t q = r) := by
  refine ⟨?_, ?_, ?_, ?_⟩
  · intro rc ht hrc
    subst ht
    simp [applyOverride, hrc]
  · rintro ⟨rc, hmem, hrc⟩
    have hq : q.all (fun x => x == 0) = false := by
      rw [List.all_eq_false]
      exact ⟨rc, hmem, by simp [hrc]⟩
    have hne : q.isEmpty = false := by
      cases q with
      | nil => simp at hmem
      | cons a l => simp
    simp [applyOverride, hne, hq]
  · intro ht hq hv hb
    subst ht
    obtain ⟨v, s, b, n⟩ := r
    simp only at hv hb
    subst hv
    have hqall : q.all (fun x => x == 0) = true := by
      rw [List.all_eq_true]
      intro x hx
      simp [hq x hx]
    have hbe : b.isEmpty = false := by
      cases hbl : b with
      | nil => exact absurd hbl hb
      | cons x xs => simp
    simp [applyOverride, hqall, hbe]
  · intro ht hq hv hb
    subst ht
    obtain ⟨v, s, b, n⟩ := r
    simp only at hv hb
    subst hv
    subst hb
    have hqall : q.all (fun x => x == 0) = true := by
      rw [List.all_eq_true]
      intro x hx
      simp [hq x hx]
    simp [applyOverride, hqall]

/-- Witness for C6: tests fail (`exitCode = 1`) while the model says
`approve` — the final verdict is forced to `changes_requested`. -/
theorem review_override_policy_witness :
    (applyOverride
      { verdict := "approve", summary := "ok", blocking := [], notes := [] }
      (some 1) []).verdict = "changes_requested" := by
  exact (review_override_policy
    { verdict := "approve", summary := "ok", blocking := [], notes := [] }
    (some 1) []).1 1 rfl (by decide)

/-- C7: the code-fix path's `schedule_retry` never propagates a dispatch
failure, but the review path's escalation step does — at a concrete review
invocation (verdict `changes_requested`, iteration 1 of 5, a located agent
issue, a failing dispatch call) the error escapes the invocation. -/
theorem review_dispatch_failure_propagates :
    review_escalation_step "changes_requested"
      (some { target_repo := pystr "octo/target", source_issue_url := pystr "https://issue/7"
              iteration := 1, max_iterations := 5
              last_verdict := pystr "changes_requested", created_at := pystr "t0" })
      (some 7) (some "octo/agent") true = .error () ∧
    (∀ (it mx : Int) (fails : Bool), ∃ o, schedule_retry it mx fails = .ok o) := by
  constructor
  · rfl
  · intro it mx fails
    unfold schedule_retry
    split
    · exact ⟨_, rfl⟩
    · split
      · exact ⟨_, rfl⟩
      · exact ⟨_, rfl⟩

/-- C8: `run_cmd` does not accept the `extra_env` keyword that the review
path's `_run_tests` passes — the call raises `TypeError` instead of
returning a `CommandOutcome`. -/
theorem run_cmd_rejects_extra_env :
    call_accepted run_tests_call_kwargs run_cmd_params = false ∧
    run_cmd_params.contains "extra_env" = false := by
  decide

/-- C10 counterexample: with repository root `/tmp/repo`, the payload entry
`../repo-sib/evil.py` resolves to `/tmp/repo-sib/evil.py`, which passes the
textual `startswith` containment test and is written — yet it is not
inside the repository directory (its segments do not extend the root's). -/
theorem apply_file_changes_escape :
    (apply_file_changes ["tmp".data, "repo".data]
      [{ path := "../repo-sib/evil.py", content := some "x" }]).2 =
      [(["tmp".data, "repo-sib".data, "evil.py".data], "x")] ∧
    (apply_file_changes ["tmp".data, "repo".data]
      [{ path := "../repo-sib/evil.py", content := some "x" }]).1 =
      ["../repo-sib/evil.py"] ∧
    (["tmp".data, "repo".data].isPrefixOf
      ["tmp".data, "repo-sib".data, "evil.py".data]) = false := by
  refine ⟨by decide, ?_, by decide⟩
  decide

/-- C10 amended: each accepted write target passes the textual-prefix test
against the resolved root (entries with empty path, absent content, or a
failing prefix test are skipped), and the returned list is exactly the
relative paths of the accepted entries in payload order.  The textual test
admits sibling directories whose name extends the root's last segment, so
"inside the repository" holds only up to that prefix test. -/
theorem apply_file_changes_amended (repo : AbsPath) (files : List FileEntry) :
    (apply_file_changes repo files).1 =
      (files.filter (acceptEntry repo)).map (fun e => stripPy e.path) ∧
    (apply_file_changes repo files).2 =
      (files.filter (acceptEntry repo)).map
        (fun e => (resolvePath (joinPath repo (stripPy e.path)), e.content.getD "")) ∧
    ∀ w ∈ (apply_file_changes repo files).2,
      startsWithC (pathChars (resolvePath repo)) (pathChars w.1) = true := by
  have h12 : (apply_file_changes repo files).1 =
      (files.filter (acceptEntry repo)).map (fun e => stripPy e.path) ∧
      (apply_file_changes repo files).2 =
      (files.filter (acceptEntry repo)).map
        (fun e => (resolvePath (joinPath repo (stripPy e.path)), e.content.getD "")) := by
    induction files with
    | nil => exact ⟨rfl, rfl⟩
    | cons e es ih =>
      obtain ⟨ih1, ih2⟩ := ih
      match hc : e.content with
      | none =>
        constructor <;>
          simp [apply_file_changes, hc, acceptEntry, List.filter_cons, ih1, ih2]
      | some content =>
        by_cases hp : (stripPy e.path).data.isEmpty
        · constructor <;>
            simp [apply_file_changes, hc, hp, acceptEntry, List.filter_cons, ih1, ih2]
        · by_cases hs : startsWithC (pathChars (resolvePath repo))
              (pathChars (resolvePath (joinPath repo (stripPy e.path)))) = true
          · constructor <;>
              simp [apply_file_changes, hc, hp, hs, acceptEntry, List.filter_cons, ih1, ih2]
          · constructor <;>
              simp [apply_file_changes, hc, hp, hs, acceptEntry, List.filter_cons, ih1, ih2]
  obtain ⟨h1, h2⟩ := h12
  refine ⟨h1, h2, ?_⟩
  intro w hw
  rw [h2] at hw
  obtain ⟨e, he, rfl⟩ := List.mem_map.mp hw
  have ha := (List.mem_filter.mp he).2
  simp only [acceptEntry, Bool.and_eq_true] at ha
  exact ha.2

/-- Witness for C10's amended theorem: a concrete in-repo write, with the
prefix conclusion discharged at the written target. -/
theorem apply_file_changes_amended_witness :
    startsWithC (pathChars (resolvePath ["tmp".data, "repo".data]))
      (pathChars (["tmp".data, "repo".data, "lib".data, "a.py".data], "ok").1) = true := by
  exact (apply_file_changes_amended ["tmp".data, "repo".data]
      [{ path := "lib/a.py", content := some "ok" }]).2.2
    (["tmp".data, "repo".data, "lib".data, "a.py".data], "ok")
    (by decide)

/-- C4: the repair stage escapes literal newlines inside string literals
and leaves newlines outside strings untouched; `extract_json` on the
spec's test input — an object with a literal newline inside the `content`
string and a trailing comma — recovers a document whose `content` field is
the single two-line string. -/
theorem extract_json_trailing_comma_newline :
    (∃ fields,
      extract_json (pystr "\x7b\"content\":\"line1\nline2\",\x7d") =
        .ok (JValue.jobj fields) ∧
      jGet fields (pystr "content") = some (JValue.jstr (pystr "line1\nline2"))) ∧
    escape_newlines_in_strings (pystr "\"a\nb\"\n[1,\n2]") = pystr "\"a\\nb\"\n[1,\n2]" := by
  exact ⟨⟨[(pystr "content", JValue.jstr (pystr "line1\nline2"))], rfl, rfl⟩, rfl⟩

theorem matchAt_starts (l p : List Nat) (h : matchAt l = some p) :
    ∃ g, p = 123 :: g := by
  unfold matchAt at h
  split at h
  · exact absurd h (by simp)
  · split at h
    · exact absurd h (by simp)
    · split at h
      · rw [Option.map_eq_some'] at h
        obtain ⟨g, _, hg⟩ := h
        exact ⟨g, hg.symm⟩
      · exact absurd h (by simp)

theorem findStateMatch_starts (text p : List Nat) (h : findStateMatch text = some p) :
    ∃ g, p = 123 :: g := by
  induction text with
  | nil => simp [findStateMatch] at h
  | cons c rest ih =>
    unfold findStateMatch at h
    split at h
    · cases h
      exact matchAt_starts _ _ (by assumption)
    · exact ih h

theorem parseObjBody_obj (fuel : Nat) (l : List Nat) (v : JValue) (r : List Nat)
    (h : parseObjBody fuel l = some (v, r)) : ∃ fs, v = JValue.jobj fs := by
  match fuel with
  | 0 => exact absurd h (by simp [parseObjBody])
  | fuel + 1 =>
    unfold parseObjBody at h
    split at h
    · cases h
      exact ⟨[], rfl⟩
    · rw [Option.map_eq_some'] at h
      obtain ⟨p, _, hp⟩ := h
      rw [Prod.mk.injEq] at hp
      exact ⟨p.1, hp.1.symm⟩
    · exact absurd h (by simp)

theorem parseValue_brace_obj (fuel : Nat) (g : List Nat) (v : JValue) (r : List Nat)
    (h : parseValue fuel (123 :: g) = some (v, r)) : ∃ fs, v = JValue.jobj fs := by
  match fuel with
  | 0 => exact absurd h (by simp [parseValue])
  | fuel + 1 =>
    unfold parseValue at h
    norm_num at h
    exact parseObjBody_obj fuel g v r h

theorem jloads_brace_obj (g : List Nat) (v : JValue)
    (h : jloads (123 :: g) = some v) : ∃ fs, v = JValue.jobj fs := by
  unfold jloads at h
  have hskip : skipJWs (123 :: g) = 123 :: g := by
    simp [skipJWs, List.dropWhile_cons, isJsonWs]
  rw [hskip] at h
  split at h
  · exact absurd h (by simp)
  · next v' rest hv =>
    split at h
    · cases h
      exact parseValue_brace_obj _ _ _ _ hv
    · exact absurd h (by simp)

/-- C2 counterexample: `parse_state` can raise on marker text with valid
JSON of an unexpected shape — a list-valued `iteration` reaches `int()`
uncaught and raises `TypeError`. -/
theorem parse_state_raises_on_list_iteration :
    parse_state (pystr "<!-- SDLC_AGENT_STATE: \x7b\"iteration\":[]\x7d -->") =
      .error PyErr.typeError := by
  rfl

/-- C2 amended: `parse_state` is total and returns absent on text without
the marker and on marker text whose payload is not valid JSON; it never
raises *provided* that, when the payload is valid JSON, its `iteration`
and `max_iterations` fields (defaulted when missing) are `int()`-coercible
— otherwise the uncaught coercion raises, as the counterexample shows. -/
theorem parse_state_resilience (text : List Nat) :
    (findStateMatch text = none → parse_state text = .ok none) ∧
    (∀ p, findStateMatch text = some p → jloads p = none → parse_state text = .ok none) ∧
    ((∀ p fields, findStateMatch text = some p → jloads p = some (JValue.jobj fields) →
        exceptOk (pyInt (jGetD fields (pystr "iteration") (JValue.jint 0))) = true ∧
        exceptOk (pyInt (jGetD fields (pystr "max_iterations") (JValue.jint 5))) = true) →
      exceptOk (parse_state text) = true) := by
  refine ⟨?_, ?_, ?_⟩
  · intro h
    simp [parse_state, h]
  · intro p hf hj
    simp [parse_state, hf, hj]
  · intro hco
    cases hf : findStateMatch text with
    | none => simp [parse_state, hf, exceptOk]
    | some p =>
      cases hj : jloads p with
      | none => simp [parse_state, hf, hj, exceptOk]
      | some v =>
        obtain ⟨g, rfl⟩ := findStateMatch_starts text p hf
        obtain ⟨fs, rfl⟩ := jloads_brace_obj g v hj
        obtain ⟨h1, h2⟩ := hco _ fs hf hj
        cases hi : pyInt (jGetD fs (pystr "iteration") (JValue.jint 0)) with
        | error e => rw [hi] at h1; simp [exceptOk] at h1
        | ok it =>
          cases hm : pyInt (jGetD fs (pystr "max_iterations") (JValue.jint 5)) with
          | error e => rw [hm] at h2; simp [exceptOk] at h2
          | ok mx =>
            simp [parse_state, hf, hj, state_from_dict, hi, hm, exceptOk, Except.map]

/-- Witness for C2's amended theorem: marker text with a numeric-string
`max_iterations` is coercible, and `parse_state` finishes without
raising. -/
theorem parse_state_resilience_witness :
    exceptOk (parse_state (pystr
      "x <!-- SDLC_AGENT_STATE: \x7b\"iteration\":3,\"max_iterations\":\"7\"\x7d --> y")) = true := by
  exact (parse_state_resilience (pystr
      "x <!-- SDLC_AGENT_STATE: \x7b\"iteration\":3,\"max_iterations\":\"7\"\x7d --> y")).2.2
    (by
      intro p fields hf hj
      have hp : p = pystr "\x7b\"iteration\":3,\"max_iterations\":\"7\"\x7d" := by
        rw [show findStateMatch (pystr
          "x <!-- SDLC_AGENT_STATE: \x7b\"iteration\":3,\"max_iterations\":\"7\"\x7d --> y") =
          some (pystr "\x7b\"iteration\":3,\"max_iterations\":\"7\"\x7d") from rfl] at hf
        exact (Option.some_inj.mp hf).symm
      subst hp
      have hfs : fields = [(pystr "iteration", JValue.jint 3),
          (pystr "max_iterations", JValue.jstr (pystr "7"))] := by
        rw [show jloads (pystr "\x7b\"iteration\":3,\"max_iterations\":\"7\"\x7d") =
          some (JValue.jobj [(pystr "iteration", JValue.jint 3),
            (pystr "max_iterations", JValue.jstr (pystr "7"))]) from rfl] at hj
        cases hj
        rfl
      subst hfs
      exact ⟨rfl, rfl⟩)

theorem hexVal_hexChar (d : Nat) (hd : d < 16) : hexVal (hexChar d) = some d := by
  interval_cases d <;> rfl

theorem parseHex4_hex4 (n : Nat) (rest : List Nat) (hn : n < 65536) :
    parseHex4 (hex4 n ++ rest) = some (n, rest) := by
  have h1 : n / 4096 % 16 < 16 := Nat.mod_lt _ (by norm_num)
  have h2 : n / 256 % 16 < 16 := Nat.mod_lt _ (by norm_num)
  have h3 : n / 16 % 16 < 16 := Nat.mod_lt _ (by norm_num)
  have h4 : n % 16 < 16 := Nat.mod_lt _ (by norm_num)
  simp only [hex4, List.cons_append, List.nil_append, parseHex4,
    hexVal_hexChar _ h1, hexVal_hexChar _ h2, hexVal_hexChar _ h3, hexVal_hexChar _ h4]
  congr 1
  rw [Prod.mk.injEq]
  exact ⟨by omega, rfl⟩

theorem parseUEscape_bmp (v : Nat) (tail : List Nat) (hv : v < 65536)
    (hns : ¬(55296 ≤ v ∧ v ≤ 56319)) :
    parseUEscape (hex4 v ++ tail) = some (v, tail) := by
  simp only [parseUEscape, parseHex4_hex4 v tail hv]
  rw [if_neg hns]

theorem parseUEscape_pair (hi lo : Nat) (tail : List Nat)
    (hhi : 55296 ≤ hi ∧ hi ≤ 56319) (hlo : 56320 ≤ lo ∧ lo ≤ 57343) :
    parseUEscape (hex4 hi ++ (92 :: 117 :: (hex4 lo ++ tail))) =
      some (65536 + (hi - 55296) * 1024 + (lo - 56320), tail) := by
  simp only [parseUEscape, parseHex4_hex4 hi _ (by omega)]
  rw [if_pos hhi]
  simp only [parseHex4_hex4 lo tail (by omega)]
  rw [if_pos hlo]

theorem escChar_special (c : Nat)
    (h : c = 34 ∨ c = 92 ∨ c = 8 ∨ c = 12 ∨ c = 10 ∨ c = 13 ∨ c = 9) :
    ∃ e, escChar c = [92, e] ∧ escMap e = some c ∧ ¬ e = 117 := by
  rcases h with h | h | h | h | h | h | h <;> subst h
  · exact ⟨34, rfl, rfl, by omega⟩
  · exact ⟨92, rfl, rfl, by omega⟩
  · exact ⟨98, rfl, rfl, by omega⟩
  · exact ⟨102, rfl, rfl, by omega⟩
  · exact ⟨110, rfl, rfl, by omega⟩
  · exact ⟨114, rfl, rfl, by omega⟩
  · exact ⟨116, rfl, rfl, by omega⟩

theorem escChar_u (c : Nat)
    (hns : ¬(c = 34 ∨ c = 92 ∨ c = 8 ∨ c = 12 ∨ c = 10 ∨ c = 13 ∨ c = 9))
    (h : c < 32 ∨ (126 < c ∧ c ≤ 65535)) :
    escChar c = 92 :: 117 :: hex4 c := by
  unfold escChar
  push_neg at hns
  obtain ⟨h34, h92, h8, h12, h10, h13, h9⟩ := hns
  rw [if_neg h34, if_neg h92, if_neg h8, if_neg h12, if_neg h10, if_neg h13, if_neg h9]
  rcases h with h | h
  · rw [if_pos h]
  · rw [if_neg (by omega), if_neg (by omega), if_pos (by omega)]

theorem escChar_print (c : Nat)
    (hns : ¬(c = 34 ∨ c = 92))
    (h : 32 ≤ c ∧ c ≤ 126) :
    escChar c = [c] := by
  unfold escChar
  push_neg at hns
  obtain ⟨h34, h92⟩ := hns
  rw [if_neg h34, if_neg h92, if_neg (by omega : ¬ c = 8), if_neg (by omega : ¬ c = 12),
    if_neg (by omega : ¬ c = 10), if_neg (by omega : ¬ c = 13), if_neg (by omega : ¬ c = 9),
    if_neg (by omega : ¬ c < 32), if_pos h.2]

theorem escChar_astral (c : Nat) (h : 65536 ≤ c) :
    escChar c = (92 :: 117 :: hex4 (55296 + (c - 65536) / 1024)) ++
      (92 :: 117 :: hex4 (56320 + (c - 65536) % 1024)) := by
  unfold escChar
  rw [if_neg (by omega : ¬ c = 34), if_neg (by omega : ¬ c = 92),
    if_neg (by omega : ¬ c = 8), if_neg (by omega : ¬ c = 12),
    if_neg (by omega : ¬ c = 10), if_neg (by omega : ¬ c = 13),
    if_neg (by omega : ¬ c = 9), if_neg (by omega : ¬ c < 32),
    if_neg (by omega : ¬ c ≤ 126), if_neg (by omega : ¬ c ≤ 65535)]

theorem scanString_uEsc (fuel ch : Nat) (u rest : List Nat)
    (hp : parseUEscape u = some (ch, rest)) :
    scanString (fuel + 1) (92 :: 117 :: u) =
      (scanString fuel rest).map (fun p => (ch :: p.1, p.2)) := by
  simp [scanString, hp]

set_option maxHeartbeats 1000000 in
theorem scanString_escChar (c : Nat) (tail : List Nat) (fuel : Nat)
    (hc : c < 1114112) (hsur : ¬(55296 ≤ c ∧ c ≤ 57343)) :
    scanString (fuel + 1) (escChar c ++ tail) =
      (scanString fuel tail).map (fun p => (c :: p.1, p.2)) := by
  by_cases hsp : c = 34 ∨ c = 92 ∨ c = 8 ∨ c = 12 ∨ c = 10 ∨ c = 13 ∨ c = 9
  · obtain ⟨e, hesc, hmap, he⟩ := escChar_special c hsp
    rw [hesc]
    simp [scanString, hmap, he]
  · by_cases hu : c < 32 ∨ (126 < c ∧ c ≤ 65535)
    · rw [escChar_u c hsp hu]
      have hb := parseUEscape_bmp c tail (by omega) (by omega)
      simp [scanString, hb]
    · by_cases hpr : c ≤ 126
      · rw [escChar_print c (by tauto) (by omega)]
        have h34 : ¬ c = 34 := by tauto
        have h92 : ¬ c = 92 := by tauto
        simp [scanString, h34, h92, (show ¬ c < 32 by omega)]
      · -- astral plane: surrogate pair
        rw [escChar_astral c (by omega)]
        generalize hq : (c - 65536) / 1024 = q
        generalize hr : (c - 65536) % 1024 = r
        have hcomb := Nat.div_add_mod (c - 65536) 1024
        have hmod := Nat.mod_lt (c - 65536) (show 0 < 1024 by norm_num)
        rw [hq, hr] at hcomb
        rw [hr] at hmod
        have hpair := parseUEscape_pair (55296 + q) (56320 + r) tail (by omega) (by omega)
        generalize hh : hex4 (55296 + q) = hhex at hpair ⊢
        generalize hl : hex4 (56320 + r) = lhex at hpair ⊢
        simp only [List.cons_append, List.append_assoc]
        rw [scanString_uEsc fuel _ _ tail hpair]
        rw [show 65536 + (55296 + q - 55296) * 1024 + (56320 + r - 56320) = c by omega]

theorem scanString_enc (s : List Nat) : ∀ (rest : List Nat) (fuel : Nat),
    WfStr s → s.length < fuel →
    scanString fuel (encStrBody s ++ (34 :: rest)) = some (s, rest) := by
  induction s with
  | nil =>
    intro rest fuel _ hfuel
    match fuel, hfuel with
    | fuel + 1, _ => rfl
  | cons c cs ih =>
    intro rest fuel hwf hfuel
    match fuel, hfuel with
    | fuel + 1, hfuel =>
      have hc := hwf c (List.mem_cons_self c cs)
      have hbody : encStrBody (c :: cs) = escChar c ++ encStrBody cs := by
        simp [encStrBody]
      rw [hbody, List.append_assoc,
        scanString_escChar c (encStrBody cs ++ (34 :: rest)) fuel hc.1 hc.2,
        ih rest fuel (fun x hx => hwf x (List.mem_cons_of_mem c hx)) (by simpa using hfuel)]
      rfl

theorem digitsVal_go (ds : List Nat) (acc : Nat) :
    (ds.map (· + 48)).foldl (fun a c => a * 10 + (c - 48)) acc =
      ds.foldl (fun a d => a * 10 + d) acc := by
  induction ds generalizing acc with
  | nil => rfl
  | cons d ds ih =>
    simp only [List.map_cons, List.foldl_cons, Nat.add_sub_cancel]
    exact ih _

theorem foldr_eq_ofDigits (L : List Nat) :
    L.foldr (fun d a => a * 10 + d) 0 = Nat.ofDigits 10 L := by
  induction L with
  | nil => simp [Nat.ofDigits]
  | cons d L ih =>
    rw [List.foldr_cons, ih, Nat.ofDigits_cons]
    ring

theorem decDigitsRev_eq (fuel : Nat) : ∀ n, n ≤ fuel → decDigitsRev fuel n = Nat.digits 10 n := by
  induction fuel with
  | zero =>
    intro n hn
    interval_cases n
    simp [decDigitsRev]
  | succ f ih =>
    intro n hn
    by_cases h0 : n = 0
    · subst h0
      simp [decDigitsRev]
    · simp only [decDigitsRev, if_neg h0]
      have hlt := Nat.div_lt_self (Nat.pos_of_ne_zero h0) (by norm_num : 1 < 10)
      rw [ih (n / 10) (by omega), Nat.digits_def' (by norm_num : 1 < 10) (Nat.pos_of_ne_zero h0)]

theorem natDec_digits (n : Nat) :
    natDec n = if n = 0 then [48] else ((Nat.digits 10 n).reverse).map (· + 48) := by
  unfold natDec
  by_cases h0 : n = 0
  · simp [h0]
  · rw [decDigitsRev_eq n n le_rfl]

theorem digitsVal_natDec (m : Nat) : digitsVal (natDec m) = m := by
  by_cases hm : m = 0
  · subst hm; rfl
  · rw [natDec_digits]
    rw [if_neg hm]
    unfold digitsVal
    rw [digitsVal_go, List.foldl_reverse]
    have : (fun (x : Nat) (y : Nat) => y * 10 + x) = fun d a => a * 10 + d := rfl
    rw [this, foldr_eq_ofDigits, Nat.ofDigits_digits]

theorem natDec_isDigit (m : Nat) : ∀ d ∈ natDec m, isDigitN d = true := by
  intro d hd
  rw [natDec_digits] at hd
  split at hd
  · simp at hd
    subst hd
    rfl
  · simp only [List.mem_map, List.mem_reverse] at hd
    obtain ⟨d0, hd0, rfl⟩ := hd
    have := Nat.digits_lt_base (by norm_num) hd0
    simp [isDigitN]
    omega

theorem natDec_head (m : Nat) (hm : m ≠ 0) :
    ∃ d t, natDec m = d :: t ∧ 49 ≤ d ∧ d ≤ 57 := by
  rw [natDec_digits, if_neg hm]
  have hne : Nat.digits 10 m ≠ [] := Nat.digits_ne_nil_iff_ne_zero.mpr hm
  have hrev : (Nat.digits 10 m).reverse ≠ [] := by simpa using hne
  obtain ⟨d0, t0, ht⟩ := List.exists_cons_of_ne_nil hrev
  refine ⟨d0 + 48, t0.map (· + 48), by rw [ht]; rfl, ?_, ?_⟩
  · have : d0 ≠ 0 := by
      have hlast : (Nat.digits 10 m).getLast hne ≠ 0 := Nat.getLast_digit_ne_zero 10 hm
      have : (Nat.digits 10 m).reverse.head? = some ((Nat.digits 10 m).getLast hne) := by
        rw [List.head?_reverse, List.getLast?_eq_getLast _ hne]
      rw [ht] at this
      simp at this
      omega
    omega
  · have hmem : d0 ∈ Nat.digits 10 m := by
      rw [← List.mem_reverse, ht]
      exact List.mem_cons_self _ _
    have := Nat.digits_lt_base (by norm_num) hmem
    omega

theorem takeWhile_digits (ds rest : List Nat) (hds : ∀ d ∈ ds, isDigitN d = true)
    (hrest : ∀ c, rest.head? = some c → isDigitN c = false) :
    (ds ++ rest).takeWhile isDigitN = ds ∧ (ds ++ rest).dropWhile isDigitN = rest := by
  induction ds with
  | nil =>
    simp only [List.nil_append]
    cases rest with
    | nil => exact ⟨rfl, rfl⟩
    | cons c r =>
      have := hrest c rfl
      simp [List.takeWhile_cons, List.dropWhile_cons, this]
  | cons d ds ih =>
    have hd := hds d (List.mem_cons_self _ _)
    obtain ⟨h1, h2⟩ := ih (fun x hx => hds x (List.mem_cons_of_mem _ hx))
    simp [List.takeWhile_cons, List.dropWhile_cons, hd, h1, h2]

theorem mkNum_int (neg : Bool) (ids : List Nat) (c : Nat) (r : List Nat)
    (hc : c = 44 ∨ c = 125) :
    mkNum neg ids (c :: r) =
      some (JValue.jint (if neg then -(digitsVal ids : Int) else (digitsVal ids : Int)),
        c :: r) := by
  rcases hc with rfl | rfl <;> simp [mkNum, parseFrac, parseExp]

theorem parseIntPart_natDec (m : Nat) (neg : Bool) (c : Nat) (r : List Nat)
    (hc : c = 44 ∨ c = 125) :
    parseIntPart neg (natDec m ++ (c :: r)) =
      some (JValue.jint (if neg then -(m : Int) else (m : Int)), c :: r) := by
  by_cases hm : m = 0
  · subst hm
    have h0 : natDec 0 = [48] := rfl
    rw [h0]
    simp only [List.cons_append, List.nil_append, parseIntPart, if_pos rfl]
    rw [mkNum_int neg [48] c r hc]
    norm_num [digitsVal]
  · obtain ⟨d, t, hdt, hd1, hd2⟩ := natDec_head m hm
    rw [hdt, List.cons_append]
    simp only [parseIntPart]
    rw [if_neg (by omega), if_pos ⟨hd1, hd2⟩]
    have hdig : ∀ x ∈ t, isDigitN x = true := by
      intro x hx
      exact natDec_isDigit m x (by rw [hdt]; exact List.mem_cons_of_mem _ hx)
    have hrd : ∀ x, (c :: r).head? = some x → isDigitN x = false := by
      intro x hx
      simp at hx
      rcases hc with rfl | rfl <;> (subst hx; rfl)
    obtain ⟨ht, hdr⟩ := takeWhile_digits t (c :: r) hdig hrd
    rw [ht, hdr, mkNum_int neg (d :: t) c r hc]
    have : digitsVal (d :: t) = m := by rw [← hdt]; exact digitsVal_natDec m
    rw [this]

theorem parseNumber_intDec (n : Int) (c : Nat) (r : List Nat) (hc : c = 44 ∨ c = 125) :
    parseNumber (intDec n ++ (c :: r)) = some (JValue.jint n, c :: r) := by
  by_cases hn : n < 0
  · unfold intDec
    rw [if_pos hn, List.cons_append]
    simp only [parseNumber, if_pos rfl]
    rw [parseIntPart_natDec n.natAbs true c r hc]
    simp only [if_true, Option.some.injEq, Prod.mk.injEq, JValue.jint.injEq]
    exact ⟨by omega, trivial⟩
  · unfold intDec
    rw [if_neg hn]
    by_cases hm : n.natAbs = 0
    · have hn0 : n = 0 := by omega
      subst hn0
      have h0 : natDec (0 : Int).natAbs = [48] := rfl
      rw [h0]
      simp only [List.cons_append, List.nil_append, parseNumber]
      rw [if_neg (by omega)]
      have := parseIntPart_natDec 0 false c r hc
      have h0' : natDec 0 = [48] := rfl
      rw [h0', List.cons_append, List.nil_append] at this
      rw [this]
      rfl
    · obtain ⟨d, t, hdt, hd1, hd2⟩ := natDec_head n.natAbs hm
      rw [hdt, List.cons_append]
      simp only [parseNumber]
      rw [if_neg (by omega)]
      rw [← List.cons_append, ← hdt]
      rw [parseIntPart_natDec n.natAbs false c r hc]
      simp only [Bool.false_eq_true, if_false, Option.some.injEq, Prod.mk.injEq,
        JValue.jint.injEq]
      exact ⟨by omega, trivial⟩

set_option maxHeartbeats 1000000 in
theorem escChar_length_pos (c : Nat) : 1 ≤ (escChar c).length := by
  unfold escChar
  split_ifs <;> simp [hex4]

theorem encStrBody_length (s : List Nat) : s.length ≤ (encStrBody s).length := by
  induction s with
  | nil => simp [encStrBody]
  | cons c cs ih =>
    have hb : encStrBody (c :: cs) = escChar c ++ encStrBody cs := by simp [encStrBody]
    rw [hb, List.length_append, List.length_cons]
    have := escChar_length_pos c
    omega

theorem encStr_shape (s : List Nat) (rest : List Nat) :
    encStr s ++ rest = 34 :: (encStrBody s ++ (34 :: rest)) := by
  simp [encStr]

theorem parseValue_encStr (s rest : List Nat) (fuel : Nat) (hwf : WfStr s) :
    parseValue (fuel + 1) (encStr s ++ rest) = some (JValue.jstr s, rest) := by
  rw [encStr_shape]
  simp only [parseValue, if_pos rfl]
  rw [scanString_enc s rest ((encStrBody s ++ (34 :: rest)).length + 1) hwf
    (by have := encStrBody_length s; simp [List.length_append]; omega)]
  rfl

theorem intDec_head (n : Int) :
    ∃ d t, intDec n = d :: t ∧ (d = 45 ∨ (48 ≤ d ∧ d ≤ 57)) := by
  unfold intDec
  split_ifs with hn
  · exact ⟨45, natDec n.natAbs, rfl, Or.inl rfl⟩
  · by_cases hm : n.natAbs = 0
    · rw [hm]
      exact ⟨48, [], rfl, Or.inr (by omega)⟩
    · obtain ⟨d, t, hdt, hd1, hd2⟩ := natDec_head n.natAbs hm
      exact ⟨d, t, hdt, Or.inr (by omega)⟩

theorem parseValue_intDec (n : Int) (c : Nat) (r : List Nat) (fuel : Nat)
    (hc : c = 44 ∨ c = 125) :
    parseValue (fuel + 1) (intDec n ++ (c :: r)) = some (JValue.jint n, c :: r) := by
  obtain ⟨d, t, hdt, hd⟩ := intDec_head n
  rw [hdt, List.cons_append]
  simp only [parseValue]
  rw [if_neg (by omega), if_neg (by omega), if_neg (by omega), if_neg (by omega),
    if_neg (by omega), if_neg (by omega)]
  rw [← List.cons_append, ← hdt, parseNumber_intDec n c r hc]

theorem membersEnc_head (more : List (List Nat × JLeaf)) :
    ∃ c r, membersEnc more = c :: r ∧ (c = 44 ∨ c = 125) := by
  cases more with
  | nil => exact ⟨125, [], rfl, Or.inr rfl⟩
  | cons kv rest =>
    obtain ⟨k, v⟩ := kv
    exact ⟨44, _, rfl, Or.inl rfl⟩

theorem skipJWs_cons_of (c : Nat) (l : List Nat) (h : isJsonWs c = false) :
    skipJWs (c :: l) = c :: l := by
  simp [skipJWs, List.dropWhile_cons, h]

theorem parseValue_encLeaf (v : JLeaf) (more : List (List Nat × JLeaf)) (fuel : Nat)
    (hwf : wfLeaf v) :
    parseValue (fuel + 1) (encLeaf v ++ membersEnc more) =
      some (leafVal v, membersEnc more) := by
  obtain ⟨c, r, hcr, hc⟩ := membersEnc_head more
  cases v with
  | str s =>
    simp only [encLeaf, leafVal]
    exact parseValue_encStr s (membersEnc more) fuel hwf
  | int n =>
    simp only [encLeaf, leafVal]
    rw [hcr]
    exact parseValue_intDec n c r fuel hc

theorem skipJWs_encLeaf (v : JLeaf) (X : List Nat) :
    skipJWs (encLeaf v ++ X) = encLeaf v ++ X := by
  cases v with
  | str s =>
    simp only [encLeaf]
    rw [encStr_shape]
    exact skipJWs_cons_of 34 _ rfl
  | int n =>
    simp only [encLeaf]
    obtain ⟨d, t, hdt, hd⟩ := intDec_head n
    rw [hdt, List.cons_append]
    refine skipJWs_cons_of d _ ?_
    simp [isJsonWs]
    omega

theorem parseMembers_chain :
    ∀ (more : List (List Nat × JLeaf)) (k : List Nat) (v : JLeaf) (fuel : Nat),
    WfStr k → wfLeaf v → (∀ kv ∈ more, WfStr kv.1 ∧ wfLeaf kv.2) →
    2 * more.length + 2 ≤ fuel →
    parseMembers fuel (encStrBody k ++ (34 :: 58 :: (encLeaf v ++ membersEnc more))) =
      some ((k, leafVal v) :: more.map (fun kv => (kv.1, leafVal kv.2)), []) := by
  intro more
  induction more with
  | nil =>
    intro k v fuel hk hv _ hfuel
    obtain ⟨f, rfl⟩ : ∃ f, fuel = f + 2 := ⟨fuel - 2, by omega⟩
    rw [show (f + 2 : Nat) = (f + 1).succ from rfl, parseMembers.eq_2]
    have hscan := scanString_enc k (58 :: (encLeaf v ++ membersEnc []))
      ((encStrBody k ++ (34 :: 58 :: (encLeaf v ++ membersEnc []))).length + 1) hk
      (by have := encStrBody_length k; simp [List.length_append]; omega)
    have h58 := skipJWs_cons_of 58 (encLeaf v ++ membersEnc []) rfl
    have hleaf := skipJWs_encLeaf v (membersEnc [])
    have hval := parseValue_encLeaf v [] f hv
    have h125 : skipJWs (membersEnc ([] : List (List Nat × JLeaf))) = 125 :: [] := rfl
    simp only [hscan, h58, hleaf, hval, h125, List.map_nil]
  | cons kv2 more2 ih =>
    intro k v fuel hk hv hmore hfuel
    obtain ⟨k2, v2⟩ := kv2
    obtain ⟨f, rfl⟩ : ∃ f, fuel = f + 2 := ⟨fuel - 2, by omega⟩
    rw [show (f + 2 : Nat) = (f + 1).succ from rfl, parseMembers.eq_2]
    have hscan := scanString_enc k (58 :: (encLeaf v ++ membersEnc ((k2, v2) :: more2)))
      ((encStrBody k ++ (34 :: 58 :: (encLeaf v ++ membersEnc ((k2, v2) :: more2)))).length + 1)
      hk (by have := encStrBody_length k; simp [List.length_append]; omega)
    have h58 := skipJWs_cons_of 58 (encLeaf v ++ membersEnc ((k2, v2) :: more2)) rfl
    have hleaf := skipJWs_encLeaf v (membersEnc ((k2, v2) :: more2))
    have hval := parseValue_encLeaf v ((k2, v2) :: more2) f hv
    have hm : membersEnc ((k2, v2) :: more2) =
      44 :: (encStr k2 ++ (58 :: (encLeaf v2 ++ membersEnc more2))) := rfl
    have h44 := skipJWs_cons_of 44 (encStr k2 ++ (58 :: (encLeaf v2 ++ membersEnc more2))) rfl
    have hsh := encStr_shape k2 (58 :: (encLeaf v2 ++ membersEnc more2))
    have hin := ih k2 v2 (f + 1) (hmore (k2, v2) (List.mem_cons_self _ _)).1
      (hmore (k2, v2) (List.mem_cons_self _ _)).2
      (fun kv hkv => hmore kv (List.mem_cons_of_mem _ hkv))
      (by simp only [List.length_cons] at hfuel; omega)
    simp only [hm, hsh] at hscan h58 hleaf hval h44
    have h34 := skipJWs_cons_of 34
      (encStrBody k2 ++ 34 :: 58 :: (encLeaf v2 ++ membersEnc more2)) rfl
    simp only [hm, hsh, hscan, h58, hleaf, hval, h44, h34, hin]
    rfl

theorem dumps_norm (s : State) :
    dumpsStateDict s = 123 :: 34 :: (encStrBody (pystr "target_repo") ++
      34 :: 58 :: (encLeaf (JLeaf.str s.target_repo) ++ membersEnc (stateLeafs s))) := by
  simp [dumpsStateDict, stateLeafs, membersEnc, encLeaf, encStr, List.append_assoc]

theorem membersEnc_end (more : List (List Nat × JLeaf)) :
    ∃ mid, membersEnc more = mid ++ [125] := by
  induction more with
  | nil => exact ⟨[], rfl⟩
  | cons kv rest ih =>
    obtain ⟨k, v⟩ := kv
    obtain ⟨mid, hmid⟩ := ih
    exact ⟨44 :: (encStr k ++ (58 :: (encLeaf v ++ mid))), by
      simp [membersEnc, hmid, List.append_assoc]⟩

theorem dumps_end (s : State) :
    ∃ mid, dumpsStateDict s = 123 :: (mid ++ [125]) := by
  obtain ⟨mid, hmid⟩ := membersEnc_end (stateLeafs s)
  refine ⟨34 :: (encStrBody (pystr "target_repo") ++
    34 :: 58 :: (encLeaf (JLeaf.str s.target_repo) ++ mid)), ?_⟩
  rw [dumps_norm s, hmid]
  simp [List.append_assoc]

theorem dumps_length (s : State) : 13 ≤ (dumpsStateDict s).length := by
  rw [dumps_norm s]
  have h1 := encStrBody_length (pystr "target_repo")
  have h2 : (pystr "target_repo").length = 11 := rfl
  simp only [List.length_cons, List.length_append, h2] at h1 ⊢
  omega

theorem wfStr_of (s : List Nat)
    (h : s.all (fun c => decide (c < 1114112 ∧ ¬(55296 ≤ c ∧ c ≤ 57343))) = true) :
    WfStr s := by
  intro c hc
  exact of_decide_eq_true (List.all_eq_true.mp h c hc)

theorem parseValue_brace (fuel : Nat) (g : List Nat) :
    parseValue (fuel + 1) (123 :: g) = parseObjBody fuel g := by
  unfold parseValue
  norm_num

theorem parseObjBody_quote (fuel : Nat) (g : List Nat) :
    parseObjBody (fuel + 1) (34 :: g) =
      (parseMembers fuel g).map (fun p => (JValue.jobj p.1, p.2)) := by
  unfold parseObjBody
  rw [skipJWs_cons_of 34 _ rfl]

theorem jloads_dumps (s : State) (h1 : WfStr s.target_repo) (h2 : WfStr s.source_issue_url)
    (h3 : WfStr s.last_verdict) (h4 : WfStr s.created_at) :
    jloads (dumpsStateDict s) = some (JValue.jobj (stateFields s)) := by
  have hlen := dumps_length s
  obtain ⟨m, hm⟩ : ∃ m, (dumpsStateDict s).length = m + 13 :=
    ⟨(dumpsStateDict s).length - 13, by omega⟩
  have hmore : ∀ kv ∈ stateLeafs s, WfStr kv.1 ∧ wfLeaf kv.2 := by
    intro kv hkv
    simp only [stateLeafs, List.mem_cons, List.not_mem_nil, or_false] at hkv
    rcases hkv with h | h | h | h | h <;> subst h
    · exact ⟨wfStr_of _ rfl, h2⟩
    · exact ⟨wfStr_of _ rfl, trivial⟩
    · exact ⟨wfStr_of _ rfl, trivial⟩
    · exact ⟨wfStr_of _ rfl, h3⟩
    · exact ⟨wfStr_of _ rfl, h4⟩
  have hchain := parseMembers_chain (stateLeafs s) (pystr "target_repo")
    (JLeaf.str s.target_repo) (m + 12) (wfStr_of _ rfl) h1 hmore
    (by simp [stateLeafs])
  unfold jloads
  rw [hm, dumps_norm s, skipJWs_cons_of 123 _ rfl]
  rw [show m + 13 + 1 = (m + 13) + 1 from rfl, parseValue_brace (m + 13)]
  rw [show (m + 13 : Nat) = (m + 12) + 1 from rfl, parseObjBody_quote (m + 12)]
  rw [hchain]
  simp [stateFields, stateLeafs, leafVal, skipJWs]

theorem state_from_dict_fields (s : State) :
    state_from_dict (stateFields s) = .ok s := by
  cases s
  rfl

theorem dropWhile_append_last (p : Nat → Bool) (m : List Nat) (c : Nat)
    (hc : p c = false) (ext : List Nat) :
    ((m ++ [c]) ++ ext).dropWhile p = (m ++ [c]).dropWhile p ++ ext := by
  induction m with
  | nil => simp [List.dropWhile_cons, hc]
  | cons a t ih =>
    by_cases ha : p a
    · simp only [List.cons_append, List.dropWhile_cons, ha, if_true]
      simpa [List.append_assoc] using ih
    · simp [List.dropWhile_cons, ha]

theorem dropWhile_last_shape (p : Nat → Bool) (m : List Nat) (c : Nat)
    (hc : p c = false) :
    ∃ t, (m ++ [c]).dropWhile p = t ++ [c] := by
  induction m with
  | nil => exact ⟨[], by simp [List.dropWhile_cons, hc]⟩
  | cons a t ih =>
    by_cases ha : p a
    · simpa [List.dropWhile_cons, ha] using ih
    · exact ⟨a :: t, by simp [List.dropWhile_cons, ha]⟩

theorem startsWithArrow_last (t ext : List Nat) :
    startsWithArrow ((t ++ [125]) ++ ext) = startsWithArrow (t ++ [125]) := by
  match t with
  | [] => rfl
  | [a] =>
    simp [startsWithArrow, startsWithL, pystr]
  | [a, b] =>
    simp [startsWithArrow, startsWithL, pystr]
  | a :: b :: c :: t => rfl

theorem wsThenArrow_last (m ext : List Nat) :
    wsThenArrow ((m ++ [125]) ++ ext) = wsThenArrow (m ++ [125]) := by
  unfold wsThenArrow
  rw [dropWhile_append_last isPyWs m 125 rfl ext]
  obtain ⟨t, ht⟩ := dropWhile_last_shape isPyWs m 125 rfl
  rw [ht, startsWithArrow_last]

theorem hasEarlyStop_cons_ne (c : Nat) (l : List Nat) (hc : ¬c = 125) :
    hasEarlyStop (c :: l) = hasEarlyStop l := by
  simp [hasEarlyStop, hc]

theorem lazyScan_clean (m : List Nat) (h : hasEarlyStop (m ++ [125]) = false) :
    lazyScan ((m ++ [125]) ++ pystr " -->") = some (m ++ [125]) := by
  induction m with
  | nil => rfl
  | cons a t ih =>
    rw [show ((a :: t) ++ [125]) ++ pystr " -->" = a :: ((t ++ [125]) ++ pystr " -->") by
      simp]
    rw [lazyScan]
    rw [show (a :: t) ++ [125] = a :: (t ++ [125]) from rfl] at h
    simp only [hasEarlyStop, Bool.or_eq_false_iff] at h
    obtain ⟨hA, hB⟩ := h
    rw [if_neg ?hcond]
    case hcond =>
      rintro ⟨rfl, harr⟩
      rw [wsThenArrow_last] at harr
      simp [List.append_ne_nil_of_right_ne_nil, harr] at hA
    rw [ih hB]
    simp

theorem matchAt_render (Y : List Nat) :
    matchAt (pystr "<!-- SDLC_AGENT_STATE: " ++ 123 :: Y) =
      (lazyScan Y).map (fun g => 123 :: g) := rfl

theorem findStateMatch_render (Y g : List Nat) (h : lazyScan Y = some g) :
    findStateMatch (pystr "<!-- SDLC_AGENT_STATE: " ++ 123 :: Y) =
      some (123 :: g) := by
  have e1 : pystr "<!-- SDLC_AGENT_STATE: " ++ 123 :: Y =
      60 :: (pystr "!-- SDLC_AGENT_STATE: " ++ 123 :: Y) := rfl
  rw [e1, findStateMatch, ← e1, matchAt_render, h]
  rfl

theorem findStateMatch_render_state (s : State) (mid : List Nat)
    (hmid : dumpsStateDict s = 123 :: (mid ++ [125]))
    (h5 : hasEarlyStop (dumpsStateDict s) = false) :
    findStateMatch (render_state s) = some (dumpsStateDict s) := by
  have hP : hasEarlyStop (mid ++ [125]) = false := by
    rw [hmid, hasEarlyStop_cons_ne 123 _ (by omega)] at h5
    exact h5
  have hscan := lazyScan_clean mid hP
  have hr : render_state s = pystr "<!-- SDLC_AGENT_STATE: " ++
      123 :: ((mid ++ [125]) ++ pystr " -->") := by
    rw [render_state, hmid]
    simp
  rw [hr, findStateMatch_render ((mid ++ [125]) ++ pystr " -->") (mid ++ [125]) hscan,
    hmid]

/-- C1 counterexample: a State whose `target_repo` is the string `} -->`
is valid by the claim's own terms (string fields, iteration 0,
max_iterations 5), yet the rendered blob does not decode back to it — the
lazy `.*?\}` of the sentinel regex stops at the `}` inside the string
field, the captured fragment is not valid JSON, and `parse_state` returns
`None` instead of the state. -/
theorem state_round_trip_counterexample :
    parse_state (render_state
      { target_repo := pystr "\x7d -->", source_issue_url := [],
        iteration := 0, max_iterations := 5,
        last_verdict := pystr "unknown", created_at := [] }) = .ok none := by
  rfl

/-- C1 (amended): `parse_state (render_state s) = s` holds for every State
whose string fields are Unicode text (no lone surrogates) and whose dumped
payload contains no early regex stop — no `}` followed by optional
whitespace and `-->` strictly inside the payload, a situation only
reachable when a string field itself contains such a fragment, as the
counterexample shows. -/
theorem state_round_trip (s : State)
    (h1 : WfStr s.target_repo) (h2 : WfStr s.source_issue_url)
    (h3 : WfStr s.last_verdict) (h4 : WfStr s.created_at)
    (h5 : hasEarlyStop (dumpsStateDict s) = false) :
    parse_state (render_state s) = .ok (some s) := by
  obtain ⟨mid, hmid⟩ := dumps_end s
  have hfind := findStateMatch_render_state s mid hmid h5
  have hj := jloads_dumps s h1 h2 h3 h4
  simp only [parse_state, hfind, hj, state_from_dict_fields, Except.map]

theorem state_round_trip_witness :
    parse_state (render_state
      { target_repo := pystr "octo/demo", source_issue_url := pystr "https://x/1",
        iteration := 2, max_iterations := 5,
        last_verdict := pystr "approved", created_at := pystr "2024-01-01T00:00:00" }) =
      .ok (some
        { target_repo := pystr "octo/demo", source_issue_url := pystr "https://x/1",
          iteration := 2, max_iterations := 5,
          last_verdict := pystr "approved", created_at := pystr "2024-01-01T00:00:00" }) :=
  state_round_trip _ (wfStr_of _ rfl) (wfStr_of _ rfl) (wfStr_of _ rfl) (wfStr_of _ rfl)
    (by decide)

end Sdlc
